import Mathlib

/-!
# Verification of the Polymarket entity synchronization managers

Shallow embedding of `TagsManager` and `EventsManager` (the entity
synchronization and relational normalization engine of the repository)
together with the storage-engine primitives they call.

Modelling conventions:

* A raw JSON document is an association list `Obj := List (String × Value)`;
  `Obj.get` is Python's `dict.get(k)` (absent key yields `null`) and
  `Obj.getD` is `dict.get(k, default)`.
* A database row is also an `Obj` (column name → stored value); a table is a
  `List Row` in insertion order, and the storage primitives implement the
  SQLite `INSERT OR REPLACE` / `INSERT OR IGNORE` semantics keyed by the
  table's primary key.
* Remote HTTP calls are modelled by an oracle supplied as an argument: a
  `Fetched α` value for single requests (`.reqError` covers both a raised
  `requests.exceptions.RequestException` and a non-2xx status turned into an
  exception by `raise_for_status`), and a `Nat → Fetched (List RawEvent)`
  oracle indexed by the requested `offset` for the paginated events list.
* `datetime.now().isoformat()` is an explicit `now : String` parameter.
-/

/-- A scalar JSON / SQLite value.  Nested structures that the managers store
only after serialization (`json.dumps`) are kept as opaque scalar values. -/
inductive Value where
  | null
  | bool (b : Bool)
  | int (n : Int)
  | str (s : String)
  deriving DecidableEq, Repr

/-- A JSON object / database row: an association list from field (column)
names to scalar values, in insertion order like a Python dict. -/
abbrev Obj := List (String × Value)

/-- Python `dict.get(k)`: the value at the first occurrence of `k`, `null`
(Python `None`) when the key is absent. -/
def Obj.get (o : Obj) (k : String) : Value :=
  match o.find? (fun p => p.1 = k) with
  | some p => p.2
  | none => .null

/-- Python `dict.get(k, default)`. -/
def Obj.getD (o : Obj) (k : String) (d : Value) : Value :=
  match o.find? (fun p => p.1 = k) with
  | some p => p.2
  | none => d

/-- A raw event document as consumed by `EventsManager`: its scalar fields,
plus the one nested array the manager reads (`tags`).  `tags = none` models a
document without a `'tags'` key (the `'tags' in event` check), `some ts` a
document carrying the nested tag objects `ts`. -/
structure RawEvent where
  fields : Obj
  tags : Option (List Obj)
  deriving DecidableEq, Repr

/-- Outcome of one remote request: `reqError` stands for a raised
`requests.exceptions.RequestException`, which covers network failures and any
non-2xx status raised by `response.raise_for_status()`; `ok` carries the
decoded JSON body. -/
inductive Fetched (α : Type) where
  | reqError
  | ok (body : α)
  deriving DecidableEq, Repr

/-! ## Storage engine primitives

Modelled from the spec: the `DatabaseManager` base class (its
`insert_or_replace`, `insert_or_ignore`, `bulk_insert_or_replace` and
`update_record` methods) is not part of the provided sources — only its
callers and, for `tag_relationships` and the `series_*` tables, the SQL
schema are.  Section 4.3 of the spec ("Upsert Storage Engine") specifies
them as idempotent keyed writes: insert-or-replace keyed by primary key and
insert-or-ignore (write-once, keep existing on conflict).  They are modelled
here with the standard SQLite semantics on a table kept as a row list:
REPLACE deletes any row with the same key and appends the new row, IGNORE
appends only when no row with the key exists. -/

/-- A database row (column name → value). -/
abbrev Row := Obj

/-- A table: its rows in storage order. -/
abbrev Table := List Row

/-- Modelled from the spec: `DatabaseManager.insert_or_replace` —
SQLite `INSERT OR REPLACE` keyed by `key`: any existing row with the same
key is deleted, the new row is appended. -/
def insert_or_replace {κ : Type} [DecidableEq κ] (key : Row → κ) (r : Row) (t : Table) : Table :=
  t.filter (fun r' => key r' ≠ key r) ++ [r]

/-- Modelled from the spec: `DatabaseManager.insert_or_ignore` —
SQLite `INSERT OR IGNORE` keyed by `key`: the row is appended only when no
row with its key is present, otherwise the table is unchanged. -/
def insert_or_ignore {κ : Type} [DecidableEq κ] (key : Row → κ) (r : Row) (t : Table) : Table :=
  if t.any (fun r' => key r' = key r) then t else t ++ [r]

/-- Modelled from the spec: `DatabaseManager.bulk_insert_or_replace` — the
records are written in order, each with insert-or-replace semantics. -/
def bulk_insert_or_replace {κ : Type} [DecidableEq κ] (key : Row → κ) (rs : List Row) (t : Table) : Table :=
  rs.foldl (fun acc r => insert_or_replace key r acc) t

/-- Modelled from the spec: `DatabaseManager.update_record(table, fields,
'id = ?', (id,))` — every row matched by the predicate has the given columns
overwritten (a column not yet present is appended). -/
def Row.setCol (r : Row) (c : String) (v : Value) : Row :=
  if r.any (fun p => p.1 = c) then
    r.map (fun p => if p.1 = c then (c, v) else p)
  else r ++ [(c, v)]

/-- Apply a list of column updates to a row. -/
def Row.setCols (r : Row) (sets : List (String × Value)) : Row :=
  sets.foldl (fun acc p => acc.setCol p.1 p.2) r

/-- Modelled from the spec: `DatabaseManager.update_record`. -/
def update_record (pred : Row → Bool) (sets : List (String × Value)) (t : Table) : Table :=
  t.map (fun r => if pred r then r.setCols sets else r)

/-- The table key invariant: no two rows share a key ("at most one row per
distinct id"). -/
def UniqKey {κ : Type} (key : Row → κ) (t : Table) : Prop :=
  t.Pairwise (fun a b => key a ≠ key b)

instance {κ : Type} [DecidableEq κ] (key : Row → κ) (t : Table) :
    Decidable (UniqKey key t) := by
  unfold UniqKey; infer_instance

/-! ## Database state and table keys -/

/-- The tables touched by the two managers.
Modelled from the spec: the `CREATE TABLE` statements for `events`, `tags`,
`event_tags` and `event_live_volume` are not part of the provided sources;
per the spec, every flat entity table is keyed by the remote `id`, every
many-to-many relation by the composite of both sides, and the per-event live
volume row by the event.  The `tag_relationships` key *is* in the provided
sources: `PRIMARY KEY (tag_id, related_tag_id)`. -/
structure DB where
  events : Table
  tags : Table
  event_tags : Table
  tag_relationships : Table
  event_live_volume : Table
  deriving DecidableEq, Repr

/-- The empty store. -/
def emptyDB : DB := ⟨[], [], [], [], []⟩

/-- Key of a flat `events` row: the `id` column. -/
def eventKey (r : Row) : Value := r.get "id"

/-- Key of a flat `tags` row: the `id` column. -/
def tagKey (r : Row) : Value := r.get "id"

/-- Key of an `event_tags` junction row: the `(event_id, tag_id)` pair. -/
def eventTagKey (r : Row) : Value × Value := (r.get "event_id", r.get "tag_id")

/-- Key of a `tag_relationships` junction row: the
`(tag_id, related_tag_id)` pair, per the schema in the sources. -/
def tagRelKey (r : Row) : Value × Value := (r.get "tag_id", r.get "related_tag_id")

/-- Key of an `event_live_volume` row: the `event_id` column. -/
def liveVolumeKey (r : Row) : Value := r.get "event_id"

/-- The configuration values read by the managers (`config.py` is not part
of the provided sources; these are opaque parameters). -/
structure Config where
  MAX_EVENTS_PER_RUN : Nat
  FETCH_LIVE_VOLUME : Bool
  deriving DecidableEq, Repr

/-! ## TagsManager -/

/-- The base field mapping of `TagsManager._prepare_tag_record`:
stored column ↦ (remote field, optional default used by `tag.get(k, d)`). -/
def tagBaseMap : List (String × String × Option Value) :=
  [("id", "id", none),
   ("label", "label", none),
   ("slug", "slug", none),
   ("force_show", "forceShow", some (.bool false))]

/-- The extra fields `_prepare_tag_record` adds via `record.update` when
`detailed=True`. -/
def tagDetailMap : List (String × String × Option Value) :=
  [("force_hide", "forceHide", some (.bool false)),
   ("is_carousel", "isCarousel", some (.bool false)),
   ("published_at", "publishedAt", none),
   ("created_by", "createdBy", none),
   ("updated_by", "updatedBy", none),
   ("created_at", "createdAt", none),
   ("updated_at", "updatedAt", none)]

/-- Apply one mapping entry to a raw document. -/
def applyMapEntry (o : Obj) (e : String × String × Option Value) : String × Value :=
  match e.2.2 with
  | some d => (e.1, o.getD e.2.1 d)
  | none => (e.1, o.get e.2.1)

/-- `TagsManager._prepare_tag_record`: the base record (ending in the
`fetched_at` stamp) followed, when `detailed`, by the updated extra keys. -/
def _prepare_tag_record (now : String) (tag : Obj) (detailed : Bool) : Row :=
  (tagBaseMap.map (applyMapEntry tag) ++ [("fetched_at", .str now)])
    ++ (if detailed then tagDetailMap.map (applyMapEntry tag) else [])

/-- `TagsManager._store_tags`: bulk insert-or-replace of the prepared
records into `tags`. -/
def _store_tags (now : String) (tags : List Obj) (detailed : Bool) (db : DB) : DB :=
  let tag_records := tags.map (fun t => _prepare_tag_record now t detailed)
  if tag_records.isEmpty then db
  else { db with tags := bulk_insert_or_replace tagKey tag_records db.tags }

/-- `TagsManager._store_tag_detailed`: single insert-or-replace of the
detailed record. -/
def _store_tag_detailed (now : String) (tag : Obj) (db : DB) : DB :=
  { db with tags := insert_or_replace tagKey (_prepare_tag_record now tag true) db.tags }

/-- The record `TagsManager._store_tag_relationships` builds for one
relationship document. -/
def tagRelRecord (now : String) (rel : Obj) : Row :=
  [("id", rel.get "id"),
   ("tag_id", rel.get "tagID"),
   ("related_tag_id", rel.get "relatedTagID"),
   ("rank", rel.get "rank"),
   ("created_at", .str now)]

/-- `TagsManager._store_tag_relationships`: bulk insert-or-replace into
`tag_relationships`, keyed by the `(tag_id, related_tag_id)` pair. -/
def _store_tag_relationships (now : String) (relationships : List Obj) (db : DB) : DB :=
  let records := relationships.map (tagRelRecord now)
  if records.isEmpty then db
  else { db with tag_relationships := bulk_insert_or_replace tagRelKey records db.tag_relationships }

/-- `TagsManager.fetch_tag_by_id`: on success the detailed tag is stored and
returned; a `RequestException` is caught, logged and turned into `None`,
with no store. -/
def fetch_tag_by_id (now : String) (outcome : Fetched Obj) (db : DB) : Option Obj × DB :=
  match outcome with
  | .reqError => (none, db)
  | .ok tag => (some tag, _store_tag_detailed now tag db)

/-- `TagsManager.fetch_tag_relationships`: on success a non-empty response
is stored; a `RequestException` is caught and `[]` returned, no store. -/
def fetch_tag_relationships (now : String) (outcome : Fetched (List Obj)) (db : DB) :
    List Obj × DB :=
  match outcome with
  | .reqError => ([], db)
  | .ok relationships =>
      (relationships,
       if relationships.isEmpty then db else _store_tag_relationships now relationships db)

/-- `TagsManager.fetch_related_tags_details`: on success a non-empty
response is stored with `detailed=True`; a `RequestException` is caught and
`[]` returned. -/
def fetch_related_tags_details (now : String) (outcome : Fetched (List Obj)) (db : DB) :
    List Obj × DB :=
  match outcome with
  | .reqError => ([], db)
  | .ok related_tags =>
      (related_tags,
       if related_tags.isEmpty then db else _store_tags now related_tags true db)

/-- `TagsManager.fetch_all_tags`: a single request (no offset pagination);
on success the returned page is stored, on failure the error is logged and
an empty list returned.  `requests` counts the HTTP requests issued. -/
structure FetchTagsResult where
  tags : List Obj
  db : DB
  requests : Nat
  deriving DecidableEq, Repr

/-- `TagsManager.fetch_all_tags` (the `limit` parameter is only sent as a
request parameter to the oracle-modelled remote; the function issues exactly
one request whatever comes back). -/
def fetch_all_tags (now : String) (_limit : Nat) (outcome : Fetched (List Obj)) (db : DB) :
    FetchTagsResult :=
  match outcome with
  | .reqError => ⟨[], db, 1⟩
  | .ok tags => ⟨tags, _store_tags now tags false db, 1⟩

/-! ## EventsManager -/

/-- The field mapping of the event record built identically by
`EventsManager._store_events` and `EventsManager._store_event_detailed`:
stored column ↦ remote field (every entry read with plain `event.get`). -/
def eventFieldMap : List (String × String) :=
  [("id", "id"), ("ticker", "ticker"), ("slug", "slug"), ("title", "title"),
   ("description", "description"), ("start_date", "startDate"),
   ("creation_date", "creationDate"), ("end_date", "endDate"),
   ("image", "image"), ("icon", "icon"), ("liquidity", "liquidity"),
   ("liquidity_clob", "liquidityClob"), ("volume", "volume"),
   ("volume_clob", "volumeClob"), ("volume_24hr", "volume24hr"),
   ("volume_24hr_clob", "volume24hrClob"), ("volume_1wk", "volume1wk"),
   ("volume_1wk_clob", "volume1wkClob"), ("volume_1mo", "volume1mo"),
   ("volume_1mo_clob", "volume1moClob"), ("volume_1yr", "volume1yr"),
   ("volume_1yr_clob", "volume1yrClob"), ("open_interest", "openInterest"),
   ("competitive", "competitive"), ("comment_count", "commentCount"),
   ("active", "active"), ("closed", "closed"), ("archived", "archived"),
   ("new", "new"), ("featured", "featured"), ("restricted", "restricted"),
   ("enable_order_book", "enableOrderBook"), ("cyom", "cyom"),
   ("show_all_outcomes", "showAllOutcomes"),
   ("show_market_images", "showMarketImages"),
   ("enable_neg_risk", "enableNegRisk"),
   ("automatically_active", "automaticallyActive"),
   ("neg_risk_augmented", "negRiskAugmented"),
   ("pending_deployment", "pendingDeployment"), ("deploying", "deploying"),
   ("created_at", "createdAt"), ("updated_at", "updatedAt")]

/-- The flat event record: the mapped fields followed by the `fetched_at`
stamp. -/
def prepare_event_record (now : String) (event : Obj) : Row :=
  eventFieldMap.map (fun e => (e.1, event.get e.2)) ++ [("fetched_at", .str now)]

/-- The tag record built inside `EventsManager._store_event_tags_basic`. -/
def basicTagRecord (tag : Obj) : Row :=
  [("id", tag.get "id"),
   ("label", tag.get "label"),
   ("slug", tag.get "slug"),
   ("force_show", tag.getD "forceShow" (.bool false)),
   ("is_carousel", tag.getD "isCarousel" (.bool false)),
   ("published_at", tag.get "publishedAt"),
   ("created_at", tag.get "createdAt"),
   ("updated_at", tag.get "updatedAt")]

/-- `EventsManager._store_event_tags_basic`: for each nested tag, an
insert-or-ignore of the tag row followed by an insert-or-ignore of the
`(event_id, tag_id)` junction row. -/
def _store_event_tags_basic (event_id : Value) (tags : List Obj) (db : DB) : DB :=
  tags.foldl
    (fun d tag =>
      let relationship : Row := [("event_id", event_id), ("tag_id", tag.get "id")]
      let d1 := { d with tags := insert_or_ignore tagKey (basicTagRecord tag) d.tags }
      { d1 with event_tags := insert_or_ignore eventTagKey relationship d1.event_tags })
    db

/-- `EventsManager._store_events`: one pass over the raw events collecting
the flat records and storing each event's nested tags as it goes
(`_store_event_tags_basic` when the document has a `'tags'` key), then a
single bulk insert-or-replace of the collected records into `events`. -/
def _store_events (now : String) (events : List RawEvent) (db : DB) : DB :=
  let step := fun (acc : List Row × DB) (e : RawEvent) =>
    let record := prepare_event_record now e.fields
    let d := match e.tags with
      | some ts => _store_event_tags_basic (e.fields.get "id") ts acc.2
      | none => acc.2
    (acc.1 ++ [record], d)
  let res := events.foldl step ([], db)
  if res.1.isEmpty then res.2
  else { res.2 with events := bulk_insert_or_replace eventKey res.1 res.2.events }

/-- `EventsManager._store_event_detailed`: single insert-or-replace of the
(identically shaped) flat event record. -/
def _store_event_detailed (now : String) (event : Obj) (db : DB) : DB :=
  { db with events := insert_or_replace eventKey (prepare_event_record now event) db.events }

/-- The tag record built inside `EventsManager._fetch_and_store_event_tags`. -/
def detailedTagRecord (now : String) (tag : Obj) : Row :=
  [("id", tag.get "id"),
   ("label", tag.get "label"),
   ("slug", tag.get "slug"),
   ("force_show", tag.getD "forceShow" (.bool false)),
   ("force_hide", tag.getD "forceHide" (.bool false)),
   ("is_carousel", tag.getD "isCarousel" (.bool false)),
   ("published_at", tag.get "publishedAt"),
   ("created_by", tag.get "createdBy"),
   ("updated_by", tag.get "updatedBy"),
   ("created_at", tag.get "createdAt"),
   ("updated_at", tag.get "updatedAt"),
   ("fetched_at", .str now)]

/-- `EventsManager._fetch_and_store_event_tags`: collects the detailed tag
records and the `(event_id, tag_id)` junction rows, then bulk
insert-or-replaces each non-empty batch. -/
def _fetch_and_store_event_tags (now : String) (event_id : Value) (tags : List Obj) (db : DB) : DB :=
  let tag_records := tags.map (detailedTagRecord now)
  let relationships := tags.map (fun tag => [("event_id", event_id), ("tag_id", tag.get "id")])
  let db1 :=
    if tag_records.isEmpty then db
    else { db with tags := bulk_insert_or_replace tagKey tag_records db.tags }
  if relationships.isEmpty then db1
  else { db1 with event_tags := bulk_insert_or_replace eventTagKey relationships db1.event_tags }

/-- `EventsManager._store_live_volume`: insert-or-replace of the per-event
live-volume row (the JSON-serialized `markets` list is kept as the raw
value), then an update of the event row's `volume` and `updated_at`. -/
def _store_live_volume (now : String) (event_id : Value) (volume_data : Obj) (db : DB) : DB :=
  let record : Row :=
    [("event_id", event_id),
     ("total_volume", volume_data.getD "total" (.int 0)),
     ("market_volumes", volume_data.get "markets"),
     ("timestamp", .str now)]
  let sets : List (String × Value) :=
    [("volume", volume_data.getD "total" (.int 0)), ("updated_at", .str now)]
  let db1 := { db with event_live_volume :=
      insert_or_replace liveVolumeKey record db.event_live_volume }
  { db1 with events :=
      update_record (fun r => r.get "id" = event_id) sets db1.events }

/-- `EventsManager.fetch_event_live_volume`: disabled config or a request
failure yields `None` with no store; a non-empty response stores its first
element. -/
def fetch_event_live_volume (cfg : Config) (now : String) (event_id : Value)
    (outcome : Fetched (List Obj)) (db : DB) : Option Obj × DB :=
  if cfg.FETCH_LIVE_VOLUME = false then (none, db)
  else
    match outcome with
    | .reqError => (none, db)
    | .ok data =>
        match data with
        | [] => (none, db)
        | volume_data :: _ => (some volume_data, _store_live_volume now event_id volume_data db)

/-- `EventsManager.fetch_event_by_id`: the HTTP request happens first; on a
`RequestException` (network failure or non-2xx raised by
`raise_for_status`) the exception is caught and `None` returned before any
store runs.  On success the detailed event is stored, then the event's tags
(`event.get('tags', [])`), then—when enabled—the live volume (whose own
request is a second oracle value). -/
def fetch_event_by_id (cfg : Config) (now : String) (event_id : Value)
    (outcome : Fetched RawEvent) (lvOutcome : Fetched (List Obj)) (db : DB) :
    Option RawEvent × DB :=
  match outcome with
  | .reqError => (none, db)
  | .ok event =>
      let db1 := _store_event_detailed now event.fields db
      let db2 := _fetch_and_store_event_tags now event_id (event.tags.getD []) db1
      let db3 :=
        if cfg.FETCH_LIVE_VOLUME then
          (fetch_event_live_volume cfg now event_id lvOutcome db2).2
        else db2
      (some event, db3)

/-- Result of the paginated bulk event fetch: the accumulated raw events,
the database, the offsets requested in order (one entry per HTTP request
issued), and whether the loop ran to a `break`/`return` of the source
(`completed = false` only when the modelling fuel ran out). -/
structure FetchEventsResult where
  events : List RawEvent
  db : DB
  offsets : List Nat
  completed : Bool
  deriving DecidableEq, Repr

/-- The `while True` loop of `EventsManager.fetch_all_events`, with explicit
fuel.  Each iteration requests the current `offset`; a `RequestException`
breaks the loop; an empty page breaks; otherwise the page is accumulated and
stored, then the loop breaks when the accumulated total reaches
`MAX_EVENTS_PER_RUN` or (after advancing `offset` by `limit`) when the page
was shorter than `limit`. -/
def fetch_all_events_loop (cfg : Config) (now : String)
    (remote : Nat → Fetched (List RawEvent)) (limit : Nat) :
    Nat → Nat → List RawEvent → DB → FetchEventsResult
  | 0, _, acc, db => ⟨acc, db, [], false⟩
  | fuel + 1, offset, acc, db =>
    match remote offset with
    | .reqError => ⟨acc, db, [offset], true⟩
    | .ok events =>
        if events.isEmpty then ⟨acc, db, [offset], true⟩
        else
          let acc' := acc ++ events
          let db' := _store_events now events db
          if cfg.MAX_EVENTS_PER_RUN ≤ acc'.length then ⟨acc', db', [offset], true⟩
          else if events.length < limit then ⟨acc', db', [offset], true⟩
          else
            let r := fetch_all_events_loop cfg now remote limit fuel (offset + limit) acc' db'
            ⟨r.events, r.db, offset :: r.offsets, r.completed⟩

/-- `EventsManager.fetch_all_events`: the loop started at offset 0 with an
empty accumulator.  `MAX_EVENTS_PER_RUN + 1` units of fuel are supplied; the
termination theorem shows this never runs out. -/
def fetch_all_events (cfg : Config) (now : String)
    (remote : Nat → Fetched (List RawEvent)) (limit : Nat) (db : DB) : FetchEventsResult :=
  fetch_all_events_loop cfg now remote limit (cfg.MAX_EVENTS_PER_RUN + 1) 0 [] db

/-! ## Detail-phase loops -/

/-- Per-id oracle for one iteration of
`EventsManager.process_all_events_detailed`: `attempt` carries the outcome
of the `fetch_event_by_id` request (and of the nested live-volume request);
`raised` models an exception escaping `fetch_event_by_id` into the loop's
`except` clause (the database effects of such a half-finished iteration are
not modelled — none of the checked claims concern them). -/
inductive DetailOutcome where
  | attempt (fetchRes : Fetched RawEvent) (lv : Fetched (List Obj))
  | raised
  deriving DecidableEq, Repr

/-- Result of a detail-processing loop. -/
structure ProcessResult where
  processed : Nat
  errors : Nat
  attempted : List Value
  db : DB
  deriving DecidableEq, Repr

/-- The body of the `for event in events` loop of
`EventsManager.process_all_events_detailed`: an iteration that raises
increments `errors`; every other iteration — including one whose
`fetch_event_by_id` request failed and was caught inside that function,
returning `None` — increments `processed`. -/
def process_events_step (cfg : Config) (now : String)
    (outcomeOf : Value → DetailOutcome) (res : ProcessResult) (eid : Value) : ProcessResult :=
  match outcomeOf eid with
  | .raised =>
      { res with errors := res.errors + 1, attempted := res.attempted ++ [eid] }
  | .attempt f lv =>
      { res with
          processed := res.processed + 1,
          attempted := res.attempted ++ [eid],
          db := (fetch_event_by_id cfg now eid f lv res.db).2 }

/-- `EventsManager.process_all_events_detailed`, looping over the stored
event ids (the result of `SELECT id ... FROM events`): each id is tried in
turn. -/
def process_all_events_detailed (cfg : Config) (now : String)
    (outcomeOf : Value → DetailOutcome) (ids : List Value) (db : DB) : ProcessResult :=
  ids.foldl (process_events_step cfg now outcomeOf) ⟨0, 0, [], db⟩

/-- Per-id oracle for one iteration of
`TagsManager.process_all_tags_detailed`: the outcomes of the three requests
(`fetch_tag_by_id`, `fetch_tag_relationships`,
`fetch_related_tags_details`), or a raised exception escaping into the
loop's `except` clause. -/
inductive TagDetailOutcome where
  | attempt (detail : Fetched Obj) (rels : Fetched (List Obj)) (related : Fetched (List Obj))
  | raised
  deriving DecidableEq, Repr

/-- Result of `process_all_tags_detailed`. -/
structure TagProcessResult where
  processed : Nat
  errors : Nat
  attempted : List Value
  totalRelationships : Nat
  db : DB
  deriving DecidableEq, Repr

/-- The body of the `for tag in tags` loop of
`TagsManager.process_all_tags_detailed`: each iteration fetches the detailed
tag, the tag's relationships (accumulating their count) and the related
tags' details; a raised exception increments `errors`, every other iteration
increments `processed` (the three fetch functions catch their own request
failures). -/
def process_tags_step (now : String) (outcomeOf : Value → TagDetailOutcome)
    (res : TagProcessResult) (tid : Value) : TagProcessResult :=
  match outcomeOf tid with
  | .raised =>
      { res with errors := res.errors + 1, attempted := res.attempted ++ [tid] }
  | .attempt d r rel =>
      let db1 := (fetch_tag_by_id now d res.db).2
      let relRes := fetch_tag_relationships now r db1
      let db3 := (fetch_related_tags_details now rel relRes.2).2
      { res with
          processed := res.processed + 1,
          attempted := res.attempted ++ [tid],
          totalRelationships := res.totalRelationships + relRes.1.length,
          db := db3 }

/-- `TagsManager.process_all_tags_detailed`, looping over the stored tag
ids: each id is tried in turn. -/
def process_all_tags_detailed (now : String)
    (outcomeOf : Value → TagDetailOutcome) (ids : List Value) (db : DB) : TagProcessResult :=
  ids.foldl (process_tags_step now outcomeOf) ⟨0, 0, [], 0, db⟩

/-! ## Derived definitions used by the correctness lemmas -/

/-- Fold of insert-or-ignore over a record list (the shape of
`_store_event_tags_basic`'s writes). -/
def fold_insert_or_ignore {κ : Type} [DecidableEq κ] (key : Row → κ) (rs : List Row) (t : Table) : Table :=
  rs.foldl (fun acc r => insert_or_ignore key r acc) t

/-- The junction row `_store_event_tags_basic` writes for one tag. -/
def relRow (event_id : Value) (tag : Obj) : Row :=
  [("event_id", event_id), ("tag_id", tag.get "id")]

/-- The pass over the raw events that `_store_events` makes before its bulk
write: each event's nested tags are stored when the document carries a
`'tags'` key. -/
def eventsTagsPass (events : List RawEvent) (db : DB) : DB :=
  events.foldl
    (fun d e =>
      match e.tags with
      | some ts => _store_event_tags_basic (e.fields.get "id") ts d
      | none => d)
    db

/-- All tag rows written by one `_store_events` call, in write order. -/
def allBasicTagRecords (events : List RawEvent) : List Row :=
  events.flatMap (fun e => (e.tags.getD []).map basicTagRecord)

/-- All `event_tags` junction rows written by one `_store_events` call, in
write order. -/
def allBasicRelRows (events : List RawEvent) : List Row :=
  events.flatMap (fun e => (e.tags.getD []).map (relRow (e.fields.get "id")))

/-- The flat records one `_store_events` call bulk-writes. -/
def eventRecords (now : String) (events : List RawEvent) : List Row :=
  events.map (fun e => prepare_event_record now e.fields)

/-- The junction rows `_fetch_and_store_event_tags` writes. -/
def detailedRelRows (event_id : Value) (tags : List Obj) : List Row :=
  tags.map (fun tag => [("event_id", event_id), ("tag_id", tag.get "id")])

/-- One way the pipeline processes an event's nested tag list: through the
bulk phase (`_store_event_tags_basic`, insert-or-ignore) or through the
detail phase (`_fetch_and_store_event_tags`, bulk insert-or-replace). -/
inductive TagStoreStep where
  | basic (event_id : Value) (tags : List Obj)
  | detailed (now : String) (event_id : Value) (tags : List Obj)
  deriving DecidableEq, Repr

/-- Run one processing step against the database. -/
def applyTagStoreStep (db : DB) : TagStoreStep → DB
  | .basic eid ts => _store_event_tags_basic eid ts db
  | .detailed now eid ts => _fetch_and_store_event_tags now eid ts db

/-- The tag ids observed in one step. -/
def stepTagIds : TagStoreStep → List Value
  | .basic _ ts => ts.map (fun t => t.get "id")
  | .detailed _ _ ts => ts.map (fun t => t.get "id")

/-- The (event id, tag id) pairs observed in one step. -/
def stepPairs : TagStoreStep → List (Value × Value)
  | .basic eid ts => ts.map (fun t => (eid, t.get "id"))
  | .detailed _ eid ts => ts.map (fun t => (eid, t.get "id"))

/-- All tag ids observed across a workload. -/
def observedTagIds (w : List TagStoreStep) : List Value := w.flatMap stepTagIds

/-- All (event id, tag id) pairs observed across a workload. -/
def observedPairs (w : List TagStoreStep) : List (Value × Value) := w.flatMap stepPairs

/-- The remote field names the tag mapping reads. -/
def tagSourceFields : List String :=
  ["id", "label", "slug", "forceShow", "forceHide", "isCarousel", "publishedAt",
   "createdBy", "updatedBy", "createdAt", "updatedAt"]

/-! ## Lemmas about the storage primitives -/

section TableLemmas

variable {κ : Type} [DecidableEq κ] (key : Row → κ)

theorem mem_map_key_insert_or_replace (r : Row) (t : Table) (x : κ) :
    x ∈ (insert_or_replace key r t).map key ↔ x ∈ t.map key ∨ x = key r := by
  unfold insert_or_replace
  rw [List.map_append, List.mem_append]
  constructor
  · rintro (h | h)
    · obtain ⟨a, ha, hax⟩ := List.mem_map.mp h
      exact Or.inl (List.mem_map.mpr ⟨a, List.mem_of_mem_filter ha, hax⟩)
    · simp only [List.map_singleton, List.mem_singleton] at h
      exact Or.inr h
  · rintro (h | rfl)
    · obtain ⟨a, ha, hax⟩ := List.mem_map.mp h
      by_cases hk : key a = key r
      · exact Or.inr (by simp [← hax, hk])
      · exact Or.inl (List.mem_map.mpr
          ⟨a, List.mem_filter.mpr ⟨ha, by simpa using hk⟩, hax⟩)
    · exact Or.inr (by simp)

theorem mem_map_key_insert_or_ignore (r : Row) (t : Table) (x : κ) :
    x ∈ (insert_or_ignore key r t).map key ↔ x ∈ t.map key ∨ x = key r := by
  unfold insert_or_ignore
  cases hany : t.any (fun r' => key r' = key r) with
  | true =>
      simp only [if_true]
      rcases List.any_eq_true.mp hany with ⟨a, ha, hk⟩
      simp only [decide_eq_true_eq] at hk
      constructor
      · exact Or.inl
      · rintro (hx | rfl)
        · exact hx
        · exact List.mem_map.mpr ⟨a, ha, hk⟩
  | false => simp [List.mem_append, or_comm, eq_comm]

theorem uniq_insert_or_replace (r : Row) (t : Table) (h : UniqKey key t) :
    UniqKey key (insert_or_replace key r t) := by
  unfold UniqKey insert_or_replace
  rw [List.pairwise_append]
  refine ⟨h.sublist (List.filter_sublist t), by simp, ?_⟩
  intro a ha b hb
  simp only [List.mem_filter, decide_eq_true_eq] at ha
  simp only [List.mem_singleton] at hb
  subst hb
  exact ha.2

theorem uniq_insert_or_ignore (r : Row) (t : Table) (h : UniqKey key t) :
    UniqKey key (insert_or_ignore key r t) := by
  unfold UniqKey insert_or_ignore
  cases hany : t.any (fun r' => key r' = key r) with
  | true => simpa using h
  | false =>
      rw [if_neg Bool.false_ne_true]
      rw [List.pairwise_append]
      refine ⟨h, by simp, ?_⟩
      intro a ha b hb
      simp only [List.mem_singleton] at hb
      rw [hb]
      intro hk
      have hc : (t.any fun r' => decide (key r' = key r)) = true :=
        List.any_eq_true.mpr ⟨a, ha, decide_eq_true hk⟩
      rw [hany] at hc
      exact Bool.false_ne_true hc

end TableLemmas

section BulkLemmas

variable {κ : Type} [DecidableEq κ] (key : Row → κ)

theorem bulk_insert_or_replace_nil (t : Table) :
    bulk_insert_or_replace key [] t = t := rfl

theorem bulk_insert_or_replace_cons (r : Row) (rs : List Row) (t : Table) :
    bulk_insert_or_replace key (r :: rs) t =
      bulk_insert_or_replace key rs (insert_or_replace key r t) := rfl

theorem insert_or_replace_nil (r : Row) :
    insert_or_replace key r ([] : Table) = [r] := rfl

/-- Writing a batch leaves the rows whose key is outside the batch untouched
(in their original order) and appends the rows the batch produces on its
own. -/
theorem bulk_insert_or_replace_eq_filter_append (rs : List Row) (t : Table) :
    bulk_insert_or_replace key rs t =
      t.filter (fun r => decide (key r ∉ rs.map key)) ++ bulk_insert_or_replace key rs [] := by
  induction rs generalizing t with
  | nil => simp [bulk_insert_or_replace]
  | cons r rs ih =>
      have hsplit : (insert_or_replace key r t).filter (fun x => decide (key x ∉ rs.map key)) =
          t.filter (fun x => decide (key x ∉ (r :: rs).map key))
            ++ [r].filter (fun x => decide (key x ∉ rs.map key)) := by
        rw [insert_or_replace, List.filter_append, List.filter_filter]
        congr 1
        apply List.filter_congr
        intro x _
        by_cases h1 : key x = key r <;> by_cases h2 : key x ∈ rs.map key <;>
          simp [h1, h2]
      calc bulk_insert_or_replace key (r :: rs) t
          = bulk_insert_or_replace key rs (insert_or_replace key r t) := rfl
        _ = (insert_or_replace key r t).filter (fun x => decide (key x ∉ rs.map key))
              ++ bulk_insert_or_replace key rs [] := ih _
        _ = (t.filter (fun x => decide (key x ∉ (r :: rs).map key))
              ++ [r].filter (fun x => decide (key x ∉ rs.map key)))
              ++ bulk_insert_or_replace key rs [] := by rw [hsplit]
        _ = t.filter (fun x => decide (key x ∉ (r :: rs).map key))
              ++ ([r].filter (fun x => decide (key x ∉ rs.map key))
                  ++ bulk_insert_or_replace key rs []) := by rw [List.append_assoc]
        _ = t.filter (fun x => decide (key x ∉ (r :: rs).map key))
              ++ bulk_insert_or_replace key rs [r] := by rw [← ih [r]]
        _ = t.filter (fun x => decide (key x ∉ (r :: rs).map key))
              ++ bulk_insert_or_replace key (r :: rs) [] := by
              rw [bulk_insert_or_replace_cons, insert_or_replace_nil]

/-- Every row of a batch-written table comes from the original table or
carries a key of the batch. -/
theorem mem_bulk_insert_or_replace (rs : List Row) (t : Table) (x : Row)
    (hx : x ∈ bulk_insert_or_replace key rs t) : x ∈ t ∨ key x ∈ rs.map key := by
  induction rs generalizing t with
  | nil => exact Or.inl hx
  | cons r rs ih =>
      rw [bulk_insert_or_replace_cons] at hx
      rcases ih _ hx with h | h
      · rcases List.mem_append.mp h with h' | h'
        · exact Or.inl (List.mem_of_mem_filter h')
        · simp only [List.mem_singleton] at h'
          subst h'
          exact Or.inr (by simp)
      · exact Or.inr (by simp [h])

/-- Re-writing the same batch is a no-op: the bulk insert-or-replace is
idempotent. -/
theorem bulk_insert_or_replace_idem (rs : List Row) (t : Table) :
    bulk_insert_or_replace key rs (bulk_insert_or_replace key rs t) =
      bulk_insert_or_replace key rs t := by
  rw [bulk_insert_or_replace_eq_filter_append key rs (bulk_insert_or_replace key rs t)]
  rw [bulk_insert_or_replace_eq_filter_append key rs t]
  rw [List.filter_append, List.filter_filter]
  have h1 : (t.filter fun a =>
      (decide (key a ∉ rs.map key) && decide (key a ∉ rs.map key))) =
      t.filter (fun a => decide (key a ∉ rs.map key)) := by
    apply List.filter_congr
    intro x _
    by_cases h : key x ∈ rs.map key <;> simp [h]
  have h2 : ((bulk_insert_or_replace key rs []).filter
      (fun r => decide (key r ∉ rs.map key))) = [] := by
    rw [List.filter_eq_nil_iff]
    intro a ha
    rcases mem_bulk_insert_or_replace key rs [] a ha with h | h
    · cases h
    · simp [h]
  rw [h1, h2, List.append_nil]

/-- Bulk insert-or-replace preserves the at-most-one-row-per-key
invariant. -/
theorem uniq_bulk_insert_or_replace (rs : List Row) (t : Table)
    (h : UniqKey key t) : UniqKey key (bulk_insert_or_replace key rs t) := by
  induction rs generalizing t with
  | nil => exact h
  | cons r rs ih =>
      rw [bulk_insert_or_replace_cons]
      exact ih _ (uniq_insert_or_replace key r t h)

/-- Keys present after a bulk insert-or-replace: the old keys plus the batch
keys. -/
theorem mem_map_key_bulk_insert_or_replace (rs : List Row) (t : Table) (x : κ) :
    x ∈ (bulk_insert_or_replace key rs t).map key ↔
      x ∈ t.map key ∨ x ∈ rs.map key := by
  induction rs generalizing t with
  | nil => simp [bulk_insert_or_replace]
  | cons r rs ih =>
      rw [bulk_insert_or_replace_cons, ih]
      rw [mem_map_key_insert_or_replace]
      simp only [List.map_cons, List.mem_cons]
      tauto

end BulkLemmas

section IgnoreLemmas

variable {κ : Type} [DecidableEq κ] (key : Row → κ)

theorem fold_insert_or_ignore_nil (t : Table) :
    fold_insert_or_ignore key [] t = t := rfl

theorem fold_insert_or_ignore_cons (r : Row) (rs : List Row) (t : Table) :
    fold_insert_or_ignore key (r :: rs) t =
      fold_insert_or_ignore key rs (insert_or_ignore key r t) := rfl

theorem fold_insert_or_ignore_append (rs₁ rs₂ : List Row) (t : Table) :
    fold_insert_or_ignore key (rs₁ ++ rs₂) t =
      fold_insert_or_ignore key rs₂ (fold_insert_or_ignore key rs₁ t) :=
  List.foldl_append _ _ _ _

theorem mem_map_key_fold_insert_or_ignore (rs : List Row) (t : Table) (x : κ) :
    x ∈ (fold_insert_or_ignore key rs t).map key ↔
      x ∈ t.map key ∨ x ∈ rs.map key := by
  induction rs generalizing t with
  | nil => simp [fold_insert_or_ignore]
  | cons r rs ih =>
      rw [fold_insert_or_ignore_cons, ih, mem_map_key_insert_or_ignore]
      simp only [List.map_cons, List.mem_cons]
      tauto

theorem uniq_fold_insert_or_ignore (rs : List Row) (t : Table)
    (h : UniqKey key t) : UniqKey key (fold_insert_or_ignore key rs t) := by
  induction rs generalizing t with
  | nil => exact h
  | cons r rs ih =>
      rw [fold_insert_or_ignore_cons]
      exact ih _ (uniq_insert_or_ignore key r t h)

/-- Inserting with ignore a batch all of whose keys are already present does
nothing. -/
theorem fold_insert_or_ignore_of_keys_present (rs : List Row) (t : Table)
    (h : ∀ r ∈ rs, key r ∈ t.map key) :
    fold_insert_or_ignore key rs t = t := by
  induction rs generalizing t with
  | nil => rfl
  | cons r rs ih =>
      have hr : key r ∈ t.map key := h r (by simp)
      obtain ⟨a, ha, hak⟩ := List.mem_map.mp hr
      have hany : (t.any fun r' => decide (key r' = key r)) = true :=
        List.any_eq_true.mpr ⟨a, ha, decide_eq_true hak⟩
      rw [fold_insert_or_ignore_cons]
      rw [show insert_or_ignore key r t = t from by unfold insert_or_ignore; rw [if_pos hany]]
      exact ih t (fun q hq => h q (by simp [hq]))

/-- Re-writing the same batch with insert-or-ignore is a no-op. -/
theorem fold_insert_or_ignore_idem (rs : List Row) (t : Table) :
    fold_insert_or_ignore key rs (fold_insert_or_ignore key rs t) =
      fold_insert_or_ignore key rs t := by
  apply fold_insert_or_ignore_of_keys_present
  intro r hr
  rw [mem_map_key_fold_insert_or_ignore]
  exact Or.inr (List.mem_map.mpr ⟨r, hr, rfl⟩)

end IgnoreLemmas

section FilterLemmas

variable {κ : Type} [DecidableEq κ] (key : Row → κ)

/-- After a single replace, the rows carrying the written row's key are
exactly the written row. -/
theorem filter_insert_or_replace_self (r : Row) (t : Table) :
    (insert_or_replace key r t).filter (fun x => decide (key x = key r)) = [r] := by
  rw [insert_or_replace, List.filter_append, List.filter_filter]
  have h1 : (t.filter fun a => decide (key a = key r) && decide (key a ≠ key r)) = [] := by
    rw [List.filter_eq_nil_iff]
    intro a _
    by_cases h : key a = key r <;> simp [h]
  rw [h1]
  simp

/-- A single replace does not change the rows carrying any other key. -/
theorem filter_insert_or_replace_ne (r : Row) (t : Table) (p : κ) (hp : key r ≠ p) :
    (insert_or_replace key r t).filter (fun x => decide (key x = p)) =
      t.filter (fun x => decide (key x = p)) := by
  rw [insert_or_replace, List.filter_append, List.filter_filter]
  have h2 : ([r].filter fun x => decide (key x = p)) = [] := by
    simp [hp]
  rw [h2, List.append_nil]
  apply List.filter_congr
  intro x _
  by_cases h : key x = p
  · have : key x ≠ key r := by rw [h]; exact fun hc => hp hc.symm
    simp [h, this, Ne.symm hp]
  · simp [h]

/-- After a bulk write, the rows carrying key `p` are: the last batch record
with key `p` when the batch mentions `p`, the original rows with key `p`
otherwise. -/
theorem filter_bulk_insert_or_replace (rs : List Row) (t : Table) (p : κ) :
    (bulk_insert_or_replace key rs t).filter (fun x => decide (key x = p)) =
      match rs.reverse.find? (fun x => decide (key x = p)) with
      | some r => [r]
      | none => t.filter (fun x => decide (key x = p)) := by
  induction rs generalizing t with
  | nil => simp [bulk_insert_or_replace]
  | cons r rs ih =>
      rw [bulk_insert_or_replace_cons, ih]
      have hrev : (r :: rs).reverse = rs.reverse ++ [r] := by simp
      rw [hrev, List.find?_append]
      cases hfind : rs.reverse.find? (fun x => decide (key x = p)) with
      | some q => simp [Option.or]
      | none =>
          simp only [Option.or]
          by_cases hk : key r = p
          · subst hk
            rw [filter_insert_or_replace_self]
            simp
          · rw [filter_insert_or_replace_ne key r t p hk]
            simp [hk]

/-- Under the key invariant the rows carrying any given key number at most
one. -/
theorem count_key_le_one_of_uniq (t : Table) (h : UniqKey key t) (p : κ) :
    (t.filter (fun x => decide (key x = p))).length ≤ 1 := by
  induction t with
  | nil => simp
  | cons a t ih =>
      rcases List.pairwise_cons.mp h with ⟨ha, ht⟩
      by_cases hk : key a = p
      · have : t.filter (fun x => decide (key x = p)) = [] := by
          rw [List.filter_eq_nil_iff]
          intro b hb hbp
          simp only [decide_eq_true_eq] at hbp
          exact ha b hb (by rw [hk, hbp])
        simp [hk, this]
      · simpa [hk] using ih ht

end FilterLemmas

/-! ## Normal forms of the store functions -/

theorem _store_event_tags_basic_eq (event_id : Value) (ts : List Obj) (db : DB) :
    _store_event_tags_basic event_id ts db =
      { db with
          tags := fold_insert_or_ignore tagKey (ts.map basicTagRecord) db.tags,
          event_tags :=
            fold_insert_or_ignore eventTagKey (ts.map (relRow event_id)) db.event_tags } := by
  induction ts generalizing db with
  | nil => rfl
  | cons tag ts ih =>
      show _store_event_tags_basic event_id ts _ = _
      rw [ih]
      rfl

theorem eventsTagsPass_eq (events : List RawEvent) (db : DB) :
    eventsTagsPass events db =
      { db with
          tags := fold_insert_or_ignore tagKey (allBasicTagRecords events) db.tags,
          event_tags :=
            fold_insert_or_ignore eventTagKey (allBasicRelRows events) db.event_tags } := by
  induction events generalizing db with
  | nil => rfl
  | cons e evs ih =>
      have hstep : eventsTagsPass (e :: evs) db =
          eventsTagsPass evs
            (match e.tags with
             | some ts => _store_event_tags_basic (e.fields.get "id") ts db
             | none => db) := rfl
      rw [hstep]
      cases he : e.tags with
      | none =>
          simp only [he]
          rw [ih]
          simp [allBasicTagRecords, allBasicRelRows, he]
      | some ts =>
          simp only [he]
          rw [_store_event_tags_basic_eq, ih]
          simp only [allBasicTagRecords, allBasicRelRows, List.flatMap_cons, he,
            Option.getD_some, fold_insert_or_ignore_append]

theorem _store_events_fold_split (now : String) (events : List RawEvent)
    (rs : List Row) (db : DB) :
    events.foldl
      (fun (acc : List Row × DB) (e : RawEvent) =>
        let record := prepare_event_record now e.fields
        let d := match e.tags with
          | some ts => _store_event_tags_basic (e.fields.get "id") ts acc.2
          | none => acc.2
        (acc.1 ++ [record], d))
      (rs, db) =
      (rs ++ eventRecords now events, eventsTagsPass events db) := by
  induction events generalizing rs db with
  | nil => simp [eventRecords, eventsTagsPass]
  | cons e evs ih =>
      show List.foldl _ _ evs = _
      rw [ih]
      simp [eventRecords, eventsTagsPass]

theorem _store_events_eq (now : String) (events : List RawEvent) (db : DB) :
    _store_events now events db =
      { eventsTagsPass events db with
          events :=
            bulk_insert_or_replace eventKey (eventRecords now events) ((eventsTagsPass events db).events) } := by
  unfold _store_events
  simp only [_store_events_fold_split now events [] db]
  cases events with
  | nil => simp [eventRecords, eventsTagsPass, bulk_insert_or_replace]
  | cons e evs => simp [eventRecords]

theorem _store_tags_eq (now : String) (tags : List Obj) (detailed : Bool) (db : DB) :
    _store_tags now tags detailed db =
      { db with tags :=
          bulk_insert_or_replace tagKey (tags.map (fun t => _prepare_tag_record now t detailed)) db.tags } := by
  unfold _store_tags
  cases tags with
  | nil => simp [bulk_insert_or_replace]
  | cons t ts => simp

theorem _store_tag_relationships_eq (now : String) (relationships : List Obj) (db : DB) :
    _store_tag_relationships now relationships db =
      { db with tag_relationships :=
          bulk_insert_or_replace tagRelKey (relationships.map (tagRelRecord now)) db.tag_relationships } := by
  unfold _store_tag_relationships
  cases relationships with
  | nil => simp [bulk_insert_or_replace]
  | cons t ts => simp

theorem _fetch_and_store_event_tags_eq (now : String) (event_id : Value)
    (tags : List Obj) (db : DB) :
    _fetch_and_store_event_tags now event_id tags db =
      { db with
          tags := bulk_insert_or_replace tagKey (tags.map (detailedTagRecord now)) db.tags,
          event_tags :=
            bulk_insert_or_replace eventTagKey (detailedRelRows event_id tags) db.event_tags } := by
  unfold _fetch_and_store_event_tags
  cases tags with
  | nil => simp [detailedRelRows, bulk_insert_or_replace]
  | cons t ts => simp [detailedRelRows]

/-- Component form of one `_store_events` call. -/
theorem _store_events_components (now : String) (events : List RawEvent) (db : DB) :
    _store_events now events db =
      ⟨bulk_insert_or_replace eventKey (eventRecords now events) db.events,
       fold_insert_or_ignore tagKey (allBasicTagRecords events) db.tags,
       fold_insert_or_ignore eventTagKey (allBasicRelRows events) db.event_tags,
       db.tag_relationships, db.event_live_volume⟩ := by
  rw [_store_events_eq, eventsTagsPass_eq]

/-! ## Claim C1 -/

/-- C1: storing flat entity records is an idempotent upsert keyed by the
remote id: running `_store_events` twice on identical input (same raw
documents, same timestamp) leaves the database — in particular the `events`
table — in the same state as running it once, and likewise for
`_store_tags`; and on a table satisfying the at-most-one-row-per-id
invariant, the store preserves that invariant, so re-ingestion overwrites
rather than appends. -/
theorem C1_store_idempotent_upsert (now : String) (events : List RawEvent)
    (tags : List Obj) (detailed : Bool) (db : DB) :
    _store_events now events (_store_events now events db) = _store_events now events db
    ∧ _store_tags now tags detailed (_store_tags now tags detailed db) =
        _store_tags now tags detailed db
    ∧ (UniqKey eventKey db.events → UniqKey eventKey (_store_events now events db).events)
    ∧ (UniqKey tagKey db.tags → UniqKey tagKey (_store_tags now tags detailed db).tags) := by
  refine ⟨?_, ?_, ?_, ?_⟩
  · rw [_store_events_components, _store_events_components]
    simp [bulk_insert_or_replace_idem, fold_insert_or_ignore_idem]
  · rw [_store_tags_eq, _store_tags_eq]
    simp [bulk_insert_or_replace_idem]
  · intro h
    rw [_store_events_components]
    exact uniq_bulk_insert_or_replace eventKey _ _ h
  · intro h
    rw [_store_tags_eq]
    exact uniq_bulk_insert_or_replace tagKey _ _ h

/-- Witness for C1 at a concrete input: one raw event carrying one nested
tag and one raw tag document, stored into the empty database. -/
theorem C1_store_idempotent_upsert_witness :
    (_store_events "t" [⟨[("id", Value.str "E1")], some [[("id", Value.str "T1")]]⟩]
        (_store_events "t" [⟨[("id", Value.str "E1")], some [[("id", Value.str "T1")]]⟩] emptyDB) =
      _store_events "t" [⟨[("id", Value.str "E1")], some [[("id", Value.str "T1")]]⟩] emptyDB)
    ∧ UniqKey eventKey
        (_store_events "t" [⟨[("id", Value.str "E1")], some [[("id", Value.str "T1")]]⟩] emptyDB).events
    ∧ UniqKey tagKey (_store_tags "t" [[("id", Value.str "T1")]] true emptyDB).tags :=
  ⟨(C1_store_idempotent_upsert "t"
      [⟨[("id", Value.str "E1")], some [[("id", Value.str "T1")]]⟩]
      [[("id", Value.str "T1")]] true emptyDB).1,
   (C1_store_idempotent_upsert "t"
      [⟨[("id", Value.str "E1")], some [[("id", Value.str "T1")]]⟩]
      [[("id", Value.str "T1")]] true emptyDB).2.2.1 (by decide),
   (C1_store_idempotent_upsert "t"
      [⟨[("id", Value.str "E1")], some [[("id", Value.str "T1")]]⟩]
      [[("id", Value.str "T1")]] true emptyDB).2.2.2 (by decide)⟩

/-! ## Claim C2 -/

/-- Keys of the rows the store routines build. -/
theorem tagKey_basicTagRecord (t : Obj) : tagKey (basicTagRecord t) = t.get "id" := rfl

theorem tagKey_detailedTagRecord (now : String) (t : Obj) :
    tagKey (detailedTagRecord now t) = t.get "id" := rfl

theorem tagKey_prepare_tag_record (now : String) (t : Obj) (detailed : Bool) :
    tagKey (_prepare_tag_record now t detailed) = t.get "id" := rfl

theorem eventTagKey_relRow (eid : Value) (t : Obj) :
    eventTagKey (relRow eid t) = (eid, t.get "id") := rfl

theorem detailedRelRows_eq (eid : Value) (ts : List Obj) :
    detailedRelRows eid ts = ts.map (relRow eid) := rfl

theorem tagRelKey_tagRelRecord (now : String) (rel : Obj) :
    tagRelKey (tagRelRecord now rel) = (rel.get "tagID", rel.get "relatedTagID") := rfl

theorem applyTagStoreStep_tags_mem (db : DB) (s : TagStoreStep) (x : Value) :
    x ∈ (applyTagStoreStep db s).tags.map tagKey ↔
      x ∈ db.tags.map tagKey ∨ x ∈ stepTagIds s := by
  cases s with
  | basic eid ts =>
      rw [show applyTagStoreStep db (.basic eid ts) = _store_event_tags_basic eid ts db from rfl]
      rw [_store_event_tags_basic_eq]
      simp only [mem_map_key_fold_insert_or_ignore, stepTagIds, List.map_map]
      rw [show (tagKey ∘ basicTagRecord) = (fun t : Obj => t.get "id") from rfl]
  | detailed now eid ts =>
      rw [show applyTagStoreStep db (.detailed now eid ts) =
        _fetch_and_store_event_tags now eid ts db from rfl]
      rw [_fetch_and_store_event_tags_eq]
      simp only [mem_map_key_bulk_insert_or_replace, stepTagIds, List.map_map]
      rw [show (tagKey ∘ detailedTagRecord now) = (fun t : Obj => t.get "id") from rfl]

theorem applyTagStoreStep_pairs_mem (db : DB) (s : TagStoreStep) (p : Value × Value) :
    p ∈ (applyTagStoreStep db s).event_tags.map eventTagKey ↔
      p ∈ db.event_tags.map eventTagKey ∨ p ∈ stepPairs s := by
  cases s with
  | basic eid ts =>
      rw [show applyTagStoreStep db (.basic eid ts) = _store_event_tags_basic eid ts db from rfl]
      rw [_store_event_tags_basic_eq]
      simp only [mem_map_key_fold_insert_or_ignore, stepPairs, List.map_map]
      rw [show (eventTagKey ∘ relRow eid) = (fun t : Obj => (eid, t.get "id")) from rfl]
  | detailed now eid ts =>
      rw [show applyTagStoreStep db (.detailed now eid ts) =
        _fetch_and_store_event_tags now eid ts db from rfl]
      rw [_fetch_and_store_event_tags_eq]
      simp only [mem_map_key_bulk_insert_or_replace, stepPairs, detailedRelRows_eq,
        List.map_map]
      rw [show (eventTagKey ∘ relRow eid) = (fun t : Obj => (eid, t.get "id")) from rfl]

theorem applyTagStoreStep_tags_uniq (db : DB) (s : TagStoreStep)
    (h : UniqKey tagKey db.tags) : UniqKey tagKey (applyTagStoreStep db s).tags := by
  cases s with
  | basic eid ts =>
      rw [show applyTagStoreStep db (.basic eid ts) = _store_event_tags_basic eid ts db from rfl]
      rw [_store_event_tags_basic_eq]
      exact uniq_fold_insert_or_ignore tagKey _ _ h
  | detailed now eid ts =>
      rw [show applyTagStoreStep db (.detailed now eid ts) =
        _fetch_and_store_event_tags now eid ts db from rfl]
      rw [_fetch_and_store_event_tags_eq]
      exact uniq_bulk_insert_or_replace tagKey _ _ h

theorem applyTagStoreStep_pairs_uniq (db : DB) (s : TagStoreStep)
    (h : UniqKey eventTagKey db.event_tags) :
    UniqKey eventTagKey (applyTagStoreStep db s).event_tags := by
  cases s with
  | basic eid ts =>
      rw [show applyTagStoreStep db (.basic eid ts) = _store_event_tags_basic eid ts db from rfl]
      rw [_store_event_tags_basic_eq]
      exact uniq_fold_insert_or_ignore eventTagKey _ _ h
  | detailed now eid ts =>
      rw [show applyTagStoreStep db (.detailed now eid ts) =
        _fetch_and_store_event_tags now eid ts db from rfl]
      rw [_fetch_and_store_event_tags_eq]
      exact uniq_bulk_insert_or_replace eventTagKey _ _ h

theorem foldTagStore_tags_mem (w : List TagStoreStep) :
    ∀ (db : DB) (x : Value),
      x ∈ ((w.foldl applyTagStoreStep db).tags.map tagKey) ↔
        x ∈ db.tags.map tagKey ∨ x ∈ observedTagIds w := by
  induction w with
  | nil => simp [observedTagIds]
  | cons s w ih =>
      intro db x
      rw [List.foldl_cons, ih, applyTagStoreStep_tags_mem]
      simp only [observedTagIds, List.flatMap_cons, List.mem_append]
      tauto

theorem foldTagStore_pairs_mem (w : List TagStoreStep) :
    ∀ (db : DB) (p : Value × Value),
      p ∈ ((w.foldl applyTagStoreStep db).event_tags.map eventTagKey) ↔
        p ∈ db.event_tags.map eventTagKey ∨ p ∈ observedPairs w := by
  induction w with
  | nil => simp [observedPairs]
  | cons s w ih =>
      intro db p
      rw [List.foldl_cons, ih, applyTagStoreStep_pairs_mem]
      simp only [observedPairs, List.flatMap_cons, List.mem_append]
      tauto

theorem foldTagStore_tags_uniq (w : List TagStoreStep) :
    ∀ (db : DB), UniqKey tagKey db.tags →
      UniqKey tagKey ((w.foldl applyTagStoreStep db).tags) := by
  induction w with
  | nil => exact fun db h => h
  | cons s w ih =>
      intro db h
      rw [List.foldl_cons]
      exact ih _ (applyTagStoreStep_tags_uniq db s h)

theorem foldTagStore_pairs_uniq (w : List TagStoreStep) :
    ∀ (db : DB), UniqKey eventTagKey db.event_tags →
      UniqKey eventTagKey ((w.foldl applyTagStoreStep db).event_tags) := by
  induction w with
  | nil => exact fun db h => h
  | cons s w ih =>
      intro db h
      rw [List.foldl_cons]
      exact ih _ (applyTagStoreStep_pairs_uniq db s h)

theorem uniqKey_iff_nodup_keys {κ : Type} (key : Row → κ) (t : Table) :
    UniqKey key t ↔ (t.map key).Nodup := by
  unfold UniqKey
  rw [List.Nodup, List.pairwise_map]

theorem length_eq_dedup_of_mem_iff {α : Type} [DecidableEq α] (l obs : List α)
    (h₁ : l.Nodup) (h₂ : ∀ x, x ∈ l ↔ x ∈ obs) : l.length = obs.dedup.length := by
  have ht : l.toFinset = obs.toFinset := by
    ext x
    simp only [List.mem_toFinset]
    exact h₂ x
  calc l.length = l.toFinset.card := (List.toFinset_card_of_nodup h₁).symm
    _ = obs.toFinset.card := by rw [ht]
    _ = obs.dedup.length := List.card_toFinset obs

/-- C2: no relation-explosion.  For any workload of event-tag processing
steps — in particular N raw events that each reference the same M tags,
re-processed any number of times through either the bulk or the detail
path — the tags table holds exactly one row per distinct observed tag id
(M rows, not N×M), and the event_tags relation holds exactly the distinct
(event_id, tag_id) pairs observed, with no duplicate pair. -/
theorem C2_no_relation_explosion (w : List TagStoreStep) :
    (∀ x, x ∈ (w.foldl applyTagStoreStep emptyDB).tags.map tagKey ↔ x ∈ observedTagIds w)
    ∧ UniqKey tagKey (w.foldl applyTagStoreStep emptyDB).tags
    ∧ (w.foldl applyTagStoreStep emptyDB).tags.length = (observedTagIds w).dedup.length
    ∧ (∀ p, p ∈ (w.foldl applyTagStoreStep emptyDB).event_tags.map eventTagKey ↔
        p ∈ observedPairs w)
    ∧ UniqKey eventTagKey (w.foldl applyTagStoreStep emptyDB).event_tags
    ∧ (w.foldl applyTagStoreStep emptyDB).event_tags.length = (observedPairs w).dedup.length := by
  have htm : ∀ x, x ∈ (w.foldl applyTagStoreStep emptyDB).tags.map tagKey ↔
      x ∈ observedTagIds w := by
    intro x
    rw [foldTagStore_tags_mem]
    simp [emptyDB]
  have htu : UniqKey tagKey (w.foldl applyTagStoreStep emptyDB).tags :=
    foldTagStore_tags_uniq w emptyDB (by simp [emptyDB, UniqKey])
  have hpm : ∀ p, p ∈ (w.foldl applyTagStoreStep emptyDB).event_tags.map eventTagKey ↔
      p ∈ observedPairs w := by
    intro p
    rw [foldTagStore_pairs_mem]
    simp [emptyDB]
  have hpu : UniqKey eventTagKey (w.foldl applyTagStoreStep emptyDB).event_tags :=
    foldTagStore_pairs_uniq w emptyDB (by simp [emptyDB, UniqKey])
  refine ⟨htm, htu, ?_, hpm, hpu, ?_⟩
  · rw [show (w.foldl applyTagStoreStep emptyDB).tags.length =
        ((w.foldl applyTagStoreStep emptyDB).tags.map tagKey).length from
      (List.length_map _ _).symm]
    exact length_eq_dedup_of_mem_iff _ _ ((uniqKey_iff_nodup_keys tagKey _).mp htu) htm
  · rw [show (w.foldl applyTagStoreStep emptyDB).event_tags.length =
        ((w.foldl applyTagStoreStep emptyDB).event_tags.map eventTagKey).length from
      (List.length_map _ _).symm]
    exact length_eq_dedup_of_mem_iff _ _ ((uniqKey_iff_nodup_keys eventTagKey _).mp hpu) hpm

/-! ## Claims C3 and C4 -/

theorem fetch_tag_relationships_ok (now : String) (rels : List Obj) (db : DB) :
    fetch_tag_relationships now (.ok rels) db = (rels, _store_tag_relationships now rels db) := by
  unfold fetch_tag_relationships
  cases rels with
  | nil => simp [_store_tag_relationships_eq, bulk_insert_or_replace]
  | cons r rs => simp

/-- C3 counterexample: a first relationship fetch for tag T1 stores the edge
(T1, A); a later fetch for T1 whose response lists only the edge (T1, B)
leaves (T1, A) in the table.  The claim — that after the run the table holds
exactly the edges of the latest response for that tag, stale edges dropped —
is therefore false: `_store_tag_relationships` only upserts, it never
deletes. -/
theorem C3_counterexample :
    (Value.str "T1", Value.str "A") ∈
      ((fetch_tag_relationships "t1"
          (Fetched.ok [[("tagID", Value.str "T1"), ("relatedTagID", Value.str "B")]])
          ((fetch_tag_relationships "t0"
              (Fetched.ok [[("tagID", Value.str "T1"), ("relatedTagID", Value.str "A")]])
              emptyDB).2)).2.tag_relationships.map tagRelKey) := by
  decide

/-- C3 amended: storing a tag's relationships upserts each edge of the
response keyed by the (tag_id, related_tag_id) pair — after the run the
table's edge set is the union of the previously stored edges and the
response's edges.  An edge stored by a previous run that is absent from the
new response is retained unchanged (stale edges are kept, not dropped), and
the at-most-one-row-per-pair invariant is preserved. -/
theorem C3_relationship_store_is_upsert_keeping_stale_edges (now : String)
    (rels : List Obj) (db : DB) :
    (∀ r ∈ db.tag_relationships,
        tagRelKey r ∉ (rels.map (tagRelRecord now)).map tagRelKey →
        r ∈ (fetch_tag_relationships now (.ok rels) db).2.tag_relationships)
    ∧ (∀ p, p ∈ (fetch_tag_relationships now (.ok rels) db).2.tag_relationships.map tagRelKey ↔
        p ∈ db.tag_relationships.map tagRelKey ∨ p ∈ (rels.map (tagRelRecord now)).map tagRelKey)
    ∧ (UniqKey tagRelKey db.tag_relationships →
        UniqKey tagRelKey (fetch_tag_relationships now (.ok rels) db).2.tag_relationships) := by
  rw [fetch_tag_relationships_ok, _store_tag_relationships_eq]
  refine ⟨?_, ?_, ?_⟩
  · intro r hr hnot
    rw [bulk_insert_or_replace_eq_filter_append]
    exact List.mem_append.mpr (Or.inl (List.mem_filter.mpr ⟨hr, by simpa using hnot⟩))
  · intro p
    exact mem_map_key_bulk_insert_or_replace tagRelKey _ _ p
  · intro h
    exact uniq_bulk_insert_or_replace tagRelKey _ _ h

/-- Witness for C3's amended claim: the stale edge (T1, A) stored by a
previous run is still in the table after a run whose response only lists
(T1, B). -/
theorem C3_relationship_store_witness :
    tagRelRecord "t0" [("tagID", Value.str "T1"), ("relatedTagID", Value.str "A")] ∈
      (fetch_tag_relationships "t1"
          (Fetched.ok [[("tagID", Value.str "T1"), ("relatedTagID", Value.str "B")]])
          ⟨[], [], [],
            [tagRelRecord "t0" [("tagID", Value.str "T1"), ("relatedTagID", Value.str "A")]],
            []⟩).2.tag_relationships :=
  (C3_relationship_store_is_upsert_keeping_stale_edges "t1"
      [[("tagID", Value.str "T1"), ("relatedTagID", Value.str "B")]]
      ⟨[], [], [],
        [tagRelRecord "t0" [("tagID", Value.str "T1"), ("relatedTagID", Value.str "A")]],
        []⟩).1
    (tagRelRecord "t0" [("tagID", Value.str "T1"), ("relatedTagID", Value.str "A")])
    (by decide) (by decide)

/-- C4: the tag_relationships table is keyed by the (tag_id, related_tag_id)
pair, not by the separate id field of the response: across every sequence of
`_store_tag_relationships` calls the at-most-one-row-per-pair invariant is
preserved; a pair written in a batch ends up with exactly one row carrying
the most recently stored record for that pair, and a pair a batch does not
mention keeps exactly its previous rows. -/
theorem C4_tag_relationships_pair_keyed :
    (∀ (batches : List (String × List Obj)) (db : DB),
        UniqKey tagRelKey db.tag_relationships →
        UniqKey tagRelKey
          ((batches.foldl (fun d b => _store_tag_relationships b.1 b.2 d) db).tag_relationships))
    ∧ (∀ (now : String) (rels : List Obj) (db : DB) (p : Value × Value) (r : Row),
        (rels.map (tagRelRecord now)).reverse.find? (fun q => decide (tagRelKey q = p)) = some r →
        (_store_tag_relationships now rels db).tag_relationships.filter
          (fun q => decide (tagRelKey q = p)) = [r])
    ∧ (∀ (now : String) (rels : List Obj) (db : DB) (p : Value × Value),
        p ∉ (rels.map (tagRelRecord now)).map tagRelKey →
        (_store_tag_relationships now rels db).tag_relationships.filter
          (fun q => decide (tagRelKey q = p)) =
          db.tag_relationships.filter (fun q => decide (tagRelKey q = p))) := by
  refine ⟨?_, ?_, ?_⟩
  · intro batches
    induction batches with
    | nil => exact fun db h => h
    | cons b bs ih =>
        intro db h
        rw [List.foldl_cons]
        apply ih
        rw [_store_tag_relationships_eq]
        exact uniq_bulk_insert_or_replace tagRelKey _ _ h
  · intro now rels db p r hfind
    rw [_store_tag_relationships_eq]
    rw [show ({ db with tag_relationships := bulk_insert_or_replace tagRelKey (rels.map (tagRelRecord now)) db.tag_relationships } : DB).tag_relationships = bulk_insert_or_replace tagRelKey (rels.map (tagRelRecord now)) db.tag_relationships from rfl]
    rw [filter_bulk_insert_or_replace, hfind]
  · intro now rels db p hnot
    rw [_store_tag_relationships_eq]
    rw [show ({ db with tag_relationships := bulk_insert_or_replace tagRelKey (rels.map (tagRelRecord now)) db.tag_relationships } : DB).tag_relationships = bulk_insert_or_replace tagRelKey (rels.map (tagRelRecord now)) db.tag_relationships from rfl]
    rw [filter_bulk_insert_or_replace]
    have hnone : (rels.map (tagRelRecord now)).reverse.find?
        (fun q => decide (tagRelKey q = p)) = none := by
      rw [List.find?_eq_none]
      intro x hx
      simp only [decide_eq_true_eq]
      intro hxp
      exact hnot (List.mem_map.mpr ⟨x, List.mem_reverse.mp hx, hxp⟩)
    rw [hnone]

/-- Witness for C4: the same pair (T1, B) stored twice in one batch with
different ranks yields exactly one row, the one carrying the later record;
and the invariant holds after a call on the empty store. -/
theorem C4_tag_relationships_pair_keyed_witness :
    (_store_tag_relationships "t"
        [[("tagID", Value.str "T1"), ("relatedTagID", Value.str "B"), ("rank", Value.int 1)],
         [("tagID", Value.str "T1"), ("relatedTagID", Value.str "B"), ("rank", Value.int 2)]]
        emptyDB).tag_relationships.filter
      (fun q => decide (tagRelKey q = (Value.str "T1", Value.str "B"))) =
      [tagRelRecord "t"
        [("tagID", Value.str "T1"), ("relatedTagID", Value.str "B"), ("rank", Value.int 2)]]
    ∧ UniqKey tagRelKey
        (([(("t" : String),
            [[("tagID", Value.str "T1"), ("relatedTagID", Value.str "B"), ("rank", Value.int 1)]])].foldl
          (fun d b => _store_tag_relationships b.1 b.2 d) emptyDB).tag_relationships) :=
  ⟨C4_tag_relationships_pair_keyed.2.1 "t"
      [[("tagID", Value.str "T1"), ("relatedTagID", Value.str "B"), ("rank", Value.int 1)],
       [("tagID", Value.str "T1"), ("relatedTagID", Value.str "B"), ("rank", Value.int 2)]]
      emptyDB (Value.str "T1", Value.str "B")
      (tagRelRecord "t"
        [("tagID", Value.str "T1"), ("relatedTagID", Value.str "B"), ("rank", Value.int 2)])
      (by decide),
   C4_tag_relationships_pair_keyed.1
      [(("t" : String),
        [[("tagID", Value.str "T1"), ("relatedTagID", Value.str "B"), ("rank", Value.int 1)]])]
      emptyDB (by decide)⟩

/-! ## The pagination loop: unfolding lemmas -/

theorem fetch_all_events_loop_zero (cfg : Config) (now : String)
    (remote : Nat → Fetched (List RawEvent)) (limit offset : Nat)
    (acc : List RawEvent) (db : DB) :
    fetch_all_events_loop cfg now remote limit 0 offset acc db = ⟨acc, db, [], false⟩ := rfl

theorem fetch_all_events_loop_err (cfg : Config) (now : String)
    (remote : Nat → Fetched (List RawEvent)) (limit fuel offset : Nat)
    (acc : List RawEvent) (db : DB) (h : remote offset = .reqError) :
    fetch_all_events_loop cfg now remote limit (fuel + 1) offset acc db =
      ⟨acc, db, [offset], true⟩ := by
  simp only [fetch_all_events_loop, h]

theorem fetch_all_events_loop_ok (cfg : Config) (now : String)
    (remote : Nat → Fetched (List RawEvent)) (limit fuel offset : Nat)
    (acc : List RawEvent) (db : DB) (events : List RawEvent)
    (h : remote offset = .ok events) :
    fetch_all_events_loop cfg now remote limit (fuel + 1) offset acc db =
      if events.isEmpty then ⟨acc, db, [offset], true⟩
      else if cfg.MAX_EVENTS_PER_RUN ≤ (acc ++ events).length then
        ⟨acc ++ events, _store_events now events db, [offset], true⟩
      else if events.length < limit then
        ⟨acc ++ events, _store_events now events db, [offset], true⟩
      else
        ⟨(fetch_all_events_loop cfg now remote limit fuel (offset + limit)
            (acc ++ events) (_store_events now events db)).events,
         (fetch_all_events_loop cfg now remote limit fuel (offset + limit)
            (acc ++ events) (_store_events now events db)).db,
         offset :: (fetch_all_events_loop cfg now remote limit fuel (offset + limit)
            (acc ++ events) (_store_events now events db)).offsets,
         (fetch_all_events_loop cfg now remote limit fuel (offset + limit)
            (acc ++ events) (_store_events now events db)).completed⟩ := by
  simp only [fetch_all_events_loop, h]

/-- With at least one unit of fuel, the loop always requests its starting
offset first. -/
theorem fetch_all_events_loop_offsets_head (cfg : Config) (now : String)
    (remote : Nat → Fetched (List RawEvent)) (limit fuel offset : Nat)
    (acc : List RawEvent) (db : DB) :
    ∃ rest, (fetch_all_events_loop cfg now remote limit (fuel + 1) offset acc db).offsets =
      offset :: rest := by
  cases h : remote offset with
  | reqError =>
      exact ⟨[], by rw [fetch_all_events_loop_err cfg now remote limit fuel offset acc db h]⟩
  | ok events =>
      rw [fetch_all_events_loop_ok cfg now remote limit fuel offset acc db events h]
      by_cases h1 : events.isEmpty
      · exact ⟨[], by rw [if_pos h1]⟩
      · rw [if_neg h1]
        by_cases h2 : cfg.MAX_EVENTS_PER_RUN ≤ (acc ++ events).length
        · exact ⟨[], by rw [if_pos h2]⟩
        · rw [if_neg h2]
          by_cases h3 : events.length < limit
          · exact ⟨[], by rw [if_pos h3]⟩
          · rw [if_neg h3]
            exact ⟨_, rfl⟩

/-- With fuel at least the remaining room under the cap, the loop always
reaches one of the source's break conditions, and the number of requests it
issues is at most that room. -/
theorem fetch_all_events_loop_bounded (cfg : Config) (now : String)
    (remote : Nat → Fetched (List RawEvent)) (limit : Nat) :
    ∀ (fuel offset : Nat) (acc : List RawEvent) (db : DB),
      acc.length < cfg.MAX_EVENTS_PER_RUN →
      cfg.MAX_EVENTS_PER_RUN ≤ acc.length + fuel →
      (fetch_all_events_loop cfg now remote limit fuel offset acc db).completed = true ∧
      (fetch_all_events_loop cfg now remote limit fuel offset acc db).offsets.length ≤
        cfg.MAX_EVENTS_PER_RUN - acc.length := by
  intro fuel
  induction fuel with
  | zero =>
      intro offset acc db h1 h2
      omega
  | succ fuel ih =>
      intro offset acc db h1 h2
      cases h : remote offset with
      | reqError =>
          rw [fetch_all_events_loop_err cfg now remote limit fuel offset acc db h]
          exact ⟨rfl, by simp; omega⟩
      | ok events =>
          rw [fetch_all_events_loop_ok cfg now remote limit fuel offset acc db events h]
          by_cases hemp : events.isEmpty
          · rw [if_pos hemp]
            exact ⟨rfl, by simp; omega⟩
          · rw [if_neg hemp]
            by_cases hcap : cfg.MAX_EVENTS_PER_RUN ≤ (acc ++ events).length
            · rw [if_pos hcap]
              exact ⟨rfl, by simp; omega⟩
            · rw [if_neg hcap]
              by_cases hshort : events.length < limit
              · rw [if_pos hshort]
                exact ⟨rfl, by simp; omega⟩
              · rw [if_neg hshort]
                have hlen : 0 < events.length := by
                  cases events with
                  | nil => simp at hemp
                  | cons e es => simp
                have happ : (acc ++ events).length = acc.length + events.length :=
                  List.length_append acc events
                have h1' : (acc ++ events).length < cfg.MAX_EVENTS_PER_RUN := by omega
                have h2' : cfg.MAX_EVENTS_PER_RUN ≤ (acc ++ events).length + fuel := by omega
                obtain ⟨hc, hb⟩ := ih (offset + limit) (acc ++ events)
                  (_store_events now events db) h1' h2'
                refine ⟨hc, ?_⟩
                simp only [List.length_cons]
                omega

/-- The offsets the loop requests form an arithmetic progression starting at
the initial offset with step `limit` (offset-ascending page walk). -/
theorem fetch_all_events_loop_offsets_arith (cfg : Config) (now : String)
    (remote : Nat → Fetched (List RawEvent)) (limit : Nat) :
    ∀ (fuel offset : Nat) (acc : List RawEvent) (db : DB),
      (fetch_all_events_loop cfg now remote limit fuel offset acc db).offsets =
        (List.range
          (fetch_all_events_loop cfg now remote limit fuel offset acc db).offsets.length).map
          (fun i => offset + i * limit) := by
  intro fuel
  induction fuel with
  | zero =>
      intro offset acc db
      rw [fetch_all_events_loop_zero]
      rfl
  | succ fuel ih =>
      intro offset acc db
      cases h : remote offset with
      | reqError =>
          rw [fetch_all_events_loop_err cfg now remote limit fuel offset acc db h]
          simp [List.range_succ]
      | ok events =>
          rw [fetch_all_events_loop_ok cfg now remote limit fuel offset acc db events h]
          by_cases hemp : events.isEmpty
          · rw [if_pos hemp]; simp [List.range_succ]
          · rw [if_neg hemp]
            by_cases hcap : cfg.MAX_EVENTS_PER_RUN ≤ (acc ++ events).length
            · rw [if_pos hcap]; simp [List.range_succ]
            · rw [if_neg hcap]
              by_cases hshort : events.length < limit
              · rw [if_pos hshort]; simp [List.range_succ]
              · rw [if_neg hshort]
                simp only [List.length_cons, List.range_succ_eq_map, List.map_cons,
                  List.map_map]
                congr 1
                · simp
                · rw [ih (offset + limit) (acc ++ events) (_store_events now events db)]
                  have hfun : ((fun i => offset + i * limit) ∘ Nat.succ) =
                      (fun i => (offset + limit) + i * limit) := by
                    funext i
                    simp only [Function.comp, Nat.succ_mul]
                    ring
                  rw [hfun]
                  simp

/-- The loop stops after exactly one request from a given offset precisely
when that page errors, comes back empty, pushes the accumulated total to
the cap, or is shorter than the page size. -/
theorem fetch_all_events_loop_single_offset_iff (cfg : Config) (now : String)
    (remote : Nat → Fetched (List RawEvent)) (limit fuel offset : Nat)
    (acc : List RawEvent) (db : DB) :
    (fetch_all_events_loop cfg now remote limit (fuel + 2) offset acc db).offsets = [offset] ↔
      remote offset = .reqError ∨
      ∃ events, remote offset = .ok events ∧
        (events = [] ∨ cfg.MAX_EVENTS_PER_RUN ≤ acc.length + events.length ∨
          events.length < limit) := by
  cases h : remote offset with
  | reqError =>
      rw [fetch_all_events_loop_err cfg now remote limit (fuel + 1) offset acc db h]
      exact iff_of_true rfl (Or.inl rfl)
  | ok events =>
      rw [fetch_all_events_loop_ok cfg now remote limit (fuel + 1) offset acc db events h]
      have happ : (acc ++ events).length = acc.length + events.length :=
        List.length_append acc events
      by_cases hemp : events.isEmpty
      · rw [if_pos hemp]
        simp only [List.isEmpty_iff] at hemp
        exact iff_of_true rfl (Or.inr ⟨events, rfl, Or.inl hemp⟩)
      · rw [if_neg hemp]
        simp only [List.isEmpty_iff] at hemp
        by_cases hcap : cfg.MAX_EVENTS_PER_RUN ≤ (acc ++ events).length
        · rw [if_pos hcap]
          exact iff_of_true rfl (Or.inr ⟨events, rfl, Or.inr (Or.inl (by omega))⟩)
        · rw [if_neg hcap]
          by_cases hshort : events.length < limit
          · rw [if_pos hshort]
            exact iff_of_true rfl (Or.inr ⟨events, rfl, Or.inr (Or.inr hshort)⟩)
          · rw [if_neg hshort]
            obtain ⟨rest, hrest⟩ := fetch_all_events_loop_offsets_head cfg now remote limit
              fuel (offset + limit) (acc ++ events) (_store_events now events db)
            apply iff_of_false
            · intro hcontr
              have hcontr2 : offset :: (fetch_all_events_loop cfg now remote limit (fuel + 1)
                  (offset + limit) (acc ++ events) (_store_events now events db)).offsets =
                  [offset] := hcontr
              rw [hrest] at hcontr2
              simp at hcontr2
            · rintro (hcontr | ⟨events', hev, hcond⟩)
              · exact Fetched.noConfusion hcontr
              · injection hev with hev
                subst hev
                rcases hcond with hc | hc | hc
                · exact absurd hc hemp
                · omega
                · exact absurd hc hshort

/-! ## Claims C5, C6, C10 -/

/-- C5 counterexample: a transiently failing first page of the events bulk
fetch is attempted exactly once — the loop issues the single request at
offset 0 and aborts the bulk phase with an empty result, instead of retrying
the failed page.  The claim that transient failures are retried with bounded
attempts (more than one) before giving up is therefore false; so is the
claim that a 4xx surfaces to the caller — the same catch swallows it. -/
theorem C5_counterexample :
    fetch_all_events ⟨500, false⟩ "t" (fun _ => Fetched.reqError) 100 emptyDB =
      ⟨[], emptyDB, [0], true⟩ := rfl

/-- C5 amended: no fetch call retries.  A page of `fetch_all_events` whose
request raises is attempted exactly once and aborts the loop immediately,
returning the pages accumulated so far; `fetch_tag_by_id` catches any
request failure (network, 5xx or 4xx alike) and returns None rather than
surfacing it; `fetch_tag_relationships` returns []; `fetch_all_tags` still
issues only its single request and returns []. -/
theorem C5_no_retry_single_attempt :
    (∀ (cfg : Config) (now : String) (remote : Nat → Fetched (List RawEvent))
        (limit fuel offset : Nat) (acc : List RawEvent) (db : DB),
        remote offset = .reqError →
        fetch_all_events_loop cfg now remote limit (fuel + 1) offset acc db =
          ⟨acc, db, [offset], true⟩)
    ∧ (∀ (now : String) (db : DB), fetch_tag_by_id now .reqError db = (none, db))
    ∧ (∀ (now : String) (db : DB), fetch_tag_relationships now .reqError db = ([], db))
    ∧ (∀ (now : String) (limit : Nat) (db : DB),
        (fetch_all_tags now limit .reqError db).requests = 1 ∧
        (fetch_all_tags now limit .reqError db).tags = []) := by
  refine ⟨?_, ?_, ?_, ?_⟩
  · intro cfg now remote limit fuel offset acc db h
    exact fetch_all_events_loop_err cfg now remote limit fuel offset acc db h
  · intro now db; rfl
  · intro now db; rfl
  · intro now limit db; exact ⟨rfl, rfl⟩

/-- Witness for C5's amended claim: the loop given one unit of fuel and a
failing page at offset 0 stops after that single request. -/
theorem C5_no_retry_witness :
    fetch_all_events_loop ⟨500, false⟩ "t" (fun _ => Fetched.reqError) 100 1 0 [] emptyDB =
      ⟨[], emptyDB, [0], true⟩ :=
  C5_no_retry_single_attempt.1 ⟨500, false⟩ "t" (fun _ => Fetched.reqError) 100 0 0 [] emptyDB rfl

/-- C6 counterexample: the tags bulk fetch handed a full first page (page
length equal to the requested page size, with no cap in sight) still issues
exactly one request — `fetch_all_tags` never advances an offset, so the
claimed walk-until-short-page never happens for tags. -/
theorem C6_counterexample :
    ¬ 2 ≤ (fetch_all_tags "t" 1 (Fetched.ok [[("id", Value.str "T1")]]) emptyDB).requests := by
  decide

/-- C6 amended: the *events* bulk fetch walks the collection by advancing an
offset in page-size steps (the requested offsets are the arithmetic
progression offset, offset+limit, …) and stops after one request from a
given offset exactly when that request fails, returns an empty page, pushes
the accumulated total to the cap, or returns fewer than page_size items; the
*tags* bulk fetch issues exactly one request, with no offset pagination,
whatever the response. -/
theorem C6_offset_walk_and_stop_conditions :
    (∀ (cfg : Config) (now : String) (remote : Nat → Fetched (List RawEvent))
        (limit fuel offset : Nat) (acc : List RawEvent) (db : DB),
        (fetch_all_events_loop cfg now remote limit fuel offset acc db).offsets =
          (List.range
            (fetch_all_events_loop cfg now remote limit fuel offset acc db).offsets.length).map
            (fun i => offset + i * limit))
    ∧ (∀ (cfg : Config) (now : String) (remote : Nat → Fetched (List RawEvent))
        (limit fuel offset : Nat) (acc : List RawEvent) (db : DB),
        (fetch_all_events_loop cfg now remote limit (fuel + 2) offset acc db).offsets =
            [offset] ↔
          remote offset = .reqError ∨
          ∃ events, remote offset = .ok events ∧
            (events = [] ∨ cfg.MAX_EVENTS_PER_RUN ≤ acc.length + events.length ∨
              events.length < limit))
    ∧ (∀ (now : String) (limit : Nat) (outcome : Fetched (List Obj)) (db : DB),
        (fetch_all_tags now limit outcome db).requests = 1) := by
  refine ⟨?_, ?_, ?_⟩
  · intro cfg now remote limit fuel offset acc db
    exact fetch_all_events_loop_offsets_arith cfg now remote limit fuel offset acc db
  · intro cfg now remote limit fuel offset acc db
    exact fetch_all_events_loop_single_offset_iff cfg now remote limit fuel offset acc db
  · intro now limit outcome db
    cases outcome <;> rfl

/-- C10: `fetch_all_events` terminates for every sequence of remote
responses: with a positive cap and a page size of at least one, the loop
always reaches one of its break conditions (it never exhausts the supplied
fuel), and the number of loop iterations — one request each — is bounded by
the cap `MAX_EVENTS_PER_RUN`. -/
theorem C10_fetch_all_events_terminates (cfg : Config) (now : String)
    (remote : Nat → Fetched (List RawEvent)) (limit : Nat) (db : DB)
    (hcap : 0 < cfg.MAX_EVENTS_PER_RUN) (_hlim : 1 ≤ limit) :
    (fetch_all_events cfg now remote limit db).completed = true ∧
    (fetch_all_events cfg now remote limit db).offsets.length ≤ cfg.MAX_EVENTS_PER_RUN := by
  unfold fetch_all_events
  have h := fetch_all_events_loop_bounded cfg now remote limit
    (cfg.MAX_EVENTS_PER_RUN + 1) 0 [] db (by simpa using hcap) (by simp)
  simpa using h

/-- Witness for C10: a remote that always answers with an empty page, cap 3
and page size 2 — the loop completes within the bound. -/
theorem C10_fetch_all_events_terminates_witness :
    (fetch_all_events ⟨3, false⟩ "t" (fun _ => Fetched.ok []) 2 emptyDB).completed = true ∧
    (fetch_all_events ⟨3, false⟩ "t" (fun _ => Fetched.ok []) 2 emptyDB).offsets.length ≤ 3 :=
  C10_fetch_all_events_terminates ⟨3, false⟩ "t" (fun _ => Fetched.ok []) 2 emptyDB
    (by decide) (by decide)

/-! ## Claim C7 -/

theorem process_events_step_raised (cfg : Config) (now : String)
    (outcomeOf : Value → DetailOutcome) (res : ProcessResult) (eid : Value)
    (h : outcomeOf eid = .raised) :
    process_events_step cfg now outcomeOf res eid =
      { res with errors := res.errors + 1, attempted := res.attempted ++ [eid] } := by
  simp [process_events_step, h]

theorem process_events_step_attempt (cfg : Config) (now : String)
    (outcomeOf : Value → DetailOutcome) (res : ProcessResult) (eid : Value)
    (f : Fetched RawEvent) (lv : Fetched (List Obj)) (h : outcomeOf eid = .attempt f lv) :
    process_events_step cfg now outcomeOf res eid =
      { res with
          processed := res.processed + 1,
          attempted := res.attempted ++ [eid],
          db := (fetch_event_by_id cfg now eid f lv res.db).2 } := by
  simp [process_events_step, h]

theorem process_events_foldl_counts (cfg : Config) (now : String)
    (outcomeOf : Value → DetailOutcome) :
    ∀ (ids : List Value) (res : ProcessResult),
      (ids.foldl (process_events_step cfg now outcomeOf) res).attempted =
          res.attempted ++ ids
      ∧ (ids.foldl (process_events_step cfg now outcomeOf) res).errors =
          res.errors + (ids.filter (fun i => decide (outcomeOf i = .raised))).length
      ∧ (ids.foldl (process_events_step cfg now outcomeOf) res).processed =
          res.processed + (ids.filter (fun i => !decide (outcomeOf i = .raised))).length := by
  intro ids
  induction ids with
  | nil => intro res; refine ⟨by simp, by simp, by simp⟩
  | cons i ids ih =>
      intro res
      rw [List.foldl_cons]
      cases ho : outcomeOf i with
      | raised =>
          rw [process_events_step_raised cfg now outcomeOf res i ho]
          obtain ⟨ha, he, hp⟩ := ih _
          refine ⟨?_, ?_, ?_⟩
          · rw [ha]; simp
          · rw [he]; simp [List.filter_cons, ho]; omega
          · rw [hp]; simp [List.filter_cons, ho]
      | attempt f lv =>
          rw [process_events_step_attempt cfg now outcomeOf res i f lv ho]
          obtain ⟨ha, he, hp⟩ := ih _
          refine ⟨?_, ?_, ?_⟩
          · rw [ha]; simp
          · rw [he]; simp [List.filter_cons, ho]
          · rw [hp]; simp [List.filter_cons, ho]; omega

theorem process_tags_step_raised (now : String) (outcomeOf : Value → TagDetailOutcome)
    (res : TagProcessResult) (tid : Value) (h : outcomeOf tid = .raised) :
    process_tags_step now outcomeOf res tid =
      { res with errors := res.errors + 1, attempted := res.attempted ++ [tid] } := by
  simp [process_tags_step, h]

theorem process_tags_step_attempt (now : String) (outcomeOf : Value → TagDetailOutcome)
    (res : TagProcessResult) (tid : Value) (d : Fetched Obj)
    (r rel : Fetched (List Obj)) (h : outcomeOf tid = .attempt d r rel) :
    process_tags_step now outcomeOf res tid =
      { res with
          processed := res.processed + 1,
          attempted := res.attempted ++ [tid],
          totalRelationships := res.totalRelationships +
            (fetch_tag_relationships now r (fetch_tag_by_id now d res.db).2).1.length,
          db := (fetch_related_tags_details now rel
            (fetch_tag_relationships now r (fetch_tag_by_id now d res.db).2).2).2 } := by
  simp [process_tags_step, h]

theorem process_tags_foldl_counts (now : String)
    (outcomeOf : Value → TagDetailOutcome) :
    ∀ (ids : List Value) (res : TagProcessResult),
      (ids.foldl (process_tags_step now outcomeOf) res).attempted = res.attempted ++ ids
      ∧ (ids.foldl (process_tags_step now outcomeOf) res).errors =
          res.errors + (ids.filter (fun i => decide (outcomeOf i = .raised))).length
      ∧ (ids.foldl (process_tags_step now outcomeOf) res).processed =
          res.processed + (ids.filter (fun i => !decide (outcomeOf i = .raised))).length := by
  intro ids
  induction ids with
  | nil => intro res; refine ⟨by simp, by simp, by simp⟩
  | cons i ids ih =>
      intro res
      rw [List.foldl_cons]
      cases ho : outcomeOf i with
      | raised =>
          rw [process_tags_step_raised now outcomeOf res i ho]
          obtain ⟨ha, he, hp⟩ := ih _
          refine ⟨?_, ?_, ?_⟩
          · rw [ha]; simp
          · rw [he]; simp [List.filter_cons, ho]; omega
          · rw [hp]; simp [List.filter_cons, ho]
      | attempt d r rel =>
          rw [process_tags_step_attempt now outcomeOf res i d r rel ho]
          obtain ⟨ha, he, hp⟩ := ih _
          refine ⟨?_, ?_, ?_⟩
          · rw [ha]; simp
          · rw [he]; simp [List.filter_cons, ho]
          · rw [hp]; simp [List.filter_cons, ho]; omega

/-- C7 counterexample: one event id whose detail request fails with a
`RequestException` — the failure is caught inside `fetch_event_by_id`
(which returns None), so the manager loop counts the id as processed, not
in the error counter: processed = 1 and errors = 0, where the claim demands
the failure be counted in the error counter. -/
theorem C7_counterexample :
    (process_all_events_detailed ⟨500, false⟩ "t"
        (fun _ => DetailOutcome.attempt Fetched.reqError Fetched.reqError)
        [Value.str "E1"] emptyDB).errors = 0
    ∧ (process_all_events_detailed ⟨500, false⟩ "t"
        (fun _ => DetailOutcome.attempt Fetched.reqError Fetched.reqError)
        [Value.str "E1"] emptyDB).processed = 1 := by
  decide

/-- C7 amended: the per-id detail loops never abort: for every id list and
every pattern of per-id outcomes, every id is attempted in order and the
final processed and error counts sum to the number of ids.  The error
counter however counts only iterations whose body raised into the manager
loop; a request failure caught inside `fetch_event_by_id` /
`fetch_tag_by_id` (which log and return None) is counted as processed, not
as an error. -/
theorem C7_detail_loop_no_abort (cfg : Config) (now : String)
    (outcomeOf : Value → DetailOutcome) (ids : List Value) (db : DB)
    (tagOutcomeOf : Value → TagDetailOutcome) (tids : List Value) (tdb : DB) :
    ((process_all_events_detailed cfg now outcomeOf ids db).attempted = ids
    ∧ (process_all_events_detailed cfg now outcomeOf ids db).processed +
        (process_all_events_detailed cfg now outcomeOf ids db).errors = ids.length
    ∧ (process_all_events_detailed cfg now outcomeOf ids db).errors =
        (ids.filter (fun i => decide (outcomeOf i = .raised))).length)
    ∧ ((process_all_tags_detailed now tagOutcomeOf tids tdb).attempted = tids
    ∧ (process_all_tags_detailed now tagOutcomeOf tids tdb).processed +
        (process_all_tags_detailed now tagOutcomeOf tids tdb).errors = tids.length
    ∧ (process_all_tags_detailed now tagOutcomeOf tids tdb).errors =
        (tids.filter (fun i => decide (tagOutcomeOf i = .raised))).length) := by
  obtain ⟨ha, he, hp⟩ := process_events_foldl_counts cfg now outcomeOf ids ⟨0, 0, [], db⟩
  obtain ⟨ha', he', hp'⟩ := process_tags_foldl_counts now tagOutcomeOf tids ⟨0, 0, [], 0, tdb⟩
  have hsplit : ∀ l : List Value,
      (l.filter (fun i => !decide (outcomeOf i = .raised))).length +
        (l.filter (fun i => decide (outcomeOf i = .raised))).length = l.length := by
    intro l
    induction l with
    | nil => simp
    | cons x l ihl =>
        by_cases hx : outcomeOf x = .raised <;>
          simp [List.filter_cons, hx] <;> omega
  have hsplit' : ∀ l : List Value,
      (l.filter (fun i => !decide (tagOutcomeOf i = .raised))).length +
        (l.filter (fun i => decide (tagOutcomeOf i = .raised))).length = l.length := by
    intro l
    induction l with
    | nil => simp
    | cons x l ihl =>
        by_cases hx : tagOutcomeOf x = .raised <;>
          simp [List.filter_cons, hx] <;> omega
  refine ⟨⟨?_, ?_, ?_⟩, ⟨?_, ?_, ?_⟩⟩
  · unfold process_all_events_detailed
    rw [ha]; simp
  · unfold process_all_events_detailed
    rw [he, hp]
    simpa using hsplit ids
  · unfold process_all_events_detailed
    rw [he]; simp
  · unfold process_all_tags_detailed
    rw [ha']; simp
  · unfold process_all_tags_detailed
    rw [he', hp']
    simpa using hsplit' tids
  · unfold process_all_tags_detailed
    rw [he']; simp

/-! ## Claims C8 and C9 -/

theorem Obj.get_cons_ne (k c : String) (v : Value) (o : Obj) (h : k ≠ c) :
    Obj.get ((k, v) :: o) c = o.get c := by
  simp [Obj.get, List.find?_cons, h]

theorem Obj.getD_cons_ne (k c : String) (v : Value) (o : Obj) (d : Value) (h : k ≠ c) :
    Obj.getD ((k, v) :: o) c d = o.getD c d := by
  simp [Obj.getD, List.find?_cons, h]

theorem Obj.getD_eq_default (o : Obj) (k : String) (d : Value)
    (h : ∀ p ∈ o, p.1 ≠ k) : o.getD k d = d := by
  unfold Obj.getD
  rw [List.find?_eq_none.mpr]
  intro p hp
  simpa using h p hp

theorem applyMapEntry_cons_ne (tag : Obj) (k : String) (v : Value)
    (e : String × String × Option Value) (h : k ≠ e.2.1) :
    applyMapEntry ((k, v) :: tag) e = applyMapEntry tag e := by
  unfold applyMapEntry
  cases hd : e.2.2 with
  | none =>
      show (e.1, Obj.get ((k, v) :: tag) e.2.1) = (e.1, tag.get e.2.1)
      rw [Obj.get_cons_ne k e.2.1 v tag h]
  | some d =>
      show (e.1, Obj.getD ((k, v) :: tag) e.2.1 d) = (e.1, tag.getD e.2.1 d)
      rw [Obj.getD_cons_ne k e.2.1 v tag d h]

theorem tagBaseMap_sources : ∀ e ∈ tagBaseMap, e.2.1 ∈ tagSourceFields := by decide

theorem tagDetailMap_sources : ∀ e ∈ tagDetailMap, e.2.1 ∈ tagSourceFields := by decide

/-- C8: normalization projects a raw document onto a fixed mapping table:
the tag record's columns are a fixed list independent of the document (5
basic, 12 detailed); any remote field outside the mapping sources is
dropped — adding it to the document leaves the record unchanged — and a
missing forceShow maps to False; the event record likewise carries exactly
the 42 mapped columns plus fetched_at, and fields outside the mapping are
dropped. -/
theorem C8_fixed_mapping_projection :
    (∀ (now : String) (tag : Obj),
        (_prepare_tag_record now tag false).map Prod.fst =
          ["id", "label", "slug", "force_show", "fetched_at"]
        ∧ (_prepare_tag_record now tag true).map Prod.fst =
          ["id", "label", "slug", "force_show", "fetched_at", "force_hide", "is_carousel",
           "published_at", "created_by", "updated_by", "created_at", "updated_at"])
    ∧ (∀ (now : String) (tag : Obj) (detailed : Bool) (k : String) (v : Value),
        k ∉ tagSourceFields →
        _prepare_tag_record now ((k, v) :: tag) detailed = _prepare_tag_record now tag detailed)
    ∧ (∀ (now : String) (tag : Obj) (detailed : Bool),
        (∀ p ∈ tag, p.1 ≠ "forceShow") →
        (_prepare_tag_record now tag detailed).get "force_show" = Value.bool false)
    ∧ (∀ (now : String) (event : Obj),
        (prepare_event_record now event).map Prod.fst =
          ["id", "ticker", "slug", "title", "description", "start_date", "creation_date",
           "end_date", "image", "icon", "liquidity", "liquidity_clob", "volume",
           "volume_clob", "volume_24hr", "volume_24hr_clob", "volume_1wk",
           "volume_1wk_clob", "volume_1mo", "volume_1mo_clob", "volume_1yr",
           "volume_1yr_clob", "open_interest", "competitive", "comment_count", "active",
           "closed", "archived", "new", "featured", "restricted", "enable_order_book",
           "cyom", "show_all_outcomes", "show_market_images", "enable_neg_risk",
           "automatically_active", "neg_risk_augmented", "pending_deployment",
           "deploying", "created_at", "updated_at", "fetched_at"])
    ∧ (∀ (now : String) (event : Obj) (k : String) (v : Value),
        k ∉ eventFieldMap.map (fun e => e.2) →
        prepare_event_record now ((k, v) :: event) = prepare_event_record now event) := by
  refine ⟨?_, ?_, ?_, ?_, ?_⟩
  · intro now tag
    exact ⟨rfl, rfl⟩
  · intro now tag detailed k v hk
    unfold _prepare_tag_record
    have h1 : tagBaseMap.map (applyMapEntry ((k, v) :: tag)) =
        tagBaseMap.map (applyMapEntry tag) := by
      apply List.map_congr_left
      intro e he
      exact applyMapEntry_cons_ne tag k v e
        (fun hc => hk (hc ▸ tagBaseMap_sources e he))
    have h2 : tagDetailMap.map (applyMapEntry ((k, v) :: tag)) =
        tagDetailMap.map (applyMapEntry tag) := by
      apply List.map_congr_left
      intro e he
      exact applyMapEntry_cons_ne tag k v e
        (fun hc => hk (hc ▸ tagDetailMap_sources e he))
    rw [h1, h2]
  · intro now tag detailed habs
    have hred : (_prepare_tag_record now tag detailed).get "force_show" =
        tag.getD "forceShow" (Value.bool false) := by
      cases detailed <;> rfl
    rw [hred]
    exact Obj.getD_eq_default tag "forceShow" (Value.bool false) habs
  · intro now event
    rfl
  · intro now event k v hk
    unfold prepare_event_record
    have h1 : eventFieldMap.map (fun e => (e.1, Obj.get ((k, v) :: event) e.2)) =
        eventFieldMap.map (fun e => (e.1, event.get e.2)) := by
      apply List.map_congr_left
      intro e he
      have hne : k ≠ e.2 := by
        intro hc
        exact hk (List.mem_map.mpr ⟨e, he, hc.symm⟩)
      rw [Obj.get_cons_ne k e.2 v event hne]
    rw [h1]

/-- Witness for C8: an unmapped field is dropped from both record shapes,
and a tag document without forceShow gets force_show = False. -/
theorem C8_fixed_mapping_projection_witness :
    _prepare_tag_record "t" [("extra", Value.int 5), ("id", Value.str "T1")] true =
      _prepare_tag_record "t" [("id", Value.str "T1")] true
    ∧ (_prepare_tag_record "t" [("id", Value.str "T1")] true).get "force_show" = Value.bool false
    ∧ prepare_event_record "t" [("foo", Value.int 1), ("id", Value.str "E1")] =
        prepare_event_record "t" [("id", Value.str "E1")] :=
  ⟨C8_fixed_mapping_projection.2.1 "t" [("id", Value.str "T1")] true "extra" (Value.int 5)
      (by decide),
   C8_fixed_mapping_projection.2.2.1 "t" [("id", Value.str "T1")] true (by decide),
   C8_fixed_mapping_projection.2.2.2.2 "t" [("id", Value.str "E1")] "foo" (Value.int 1)
      (by decide)⟩

/-- C9: if the HTTP request inside `fetch_event_by_id` fails (a raised
exception or a non-2xx status turned into one by raise_for_status), the
function returns None and the database is returned unchanged — no event,
tag, event_tags or live-volume row is created or modified, because every
store in the function runs only after the response is decoded. -/
theorem C9_fetch_event_by_id_error_no_write (cfg : Config) (now : String)
    (event_id : Value) (lv : Fetched (List Obj)) (db : DB) :
    fetch_event_by_id cfg now event_id .reqError lv db = (none, db) := rfl
